import Mathlib

/-!
# Verification of the teambidder auction core

Shallow embedding of the auction session state machine and bid-arbitration
engine of `src/app.py` / `src/models.py` (Flask + SQLAlchemy application).

Modelling conventions:
* SQL rows become Lean structures; the per-auction tables (`Player`,
  `Participant`, `Bid`) become lists held in one `AuctionState`, listed in
  insertion (rowid) order, which is the order `query(...).first()` scans.
* Python `float` money amounts become `ℚ` (the claims under study do not
  depend on rounding).
* `datetime` timestamps on bids become a `Nat` logical clock (`ts`); the
  ledger is append-only and `created_at` is monotone, so creation order is
  ledger order; the `ts` field is set to the ledger length at append time.
* Socket handlers that `emit('error', ...)` and return without touching the
  database are modelled as `Except Err AuctionState`: an `Err` result means
  the handler returned before any mutation, so the state is unchanged.
* `secrets.choice` in `generate_short_code` is modelled by an explicit
  entropy stream `Nat → Fin 36` (an index into the 36-character alphabet
  `A..Z0..9`), consumed left to right.
-/

namespace TeamBidder

/-- Roles of a participant (`Participant.role` column: bidder, visitor, admin). -/
inductive Role where
  | admin
  | bidder
  | visitor
deriving DecidableEq, Repr

/-- Auction lifecycle status (`Auction.status` column). -/
inductive AuctionStatus where
  | lobby
  | countdown
  | active
  | completed
deriving DecidableEq, Repr

/-- Player status (`Player.status` column). -/
inductive PlayerStatus where
  | available
  | bidding
  | sold
  | unsold
deriving DecidableEq, Repr

/-- The distinct error messages the socket handlers emit before returning. -/
inductive Err where
  /-- 'Not authorized' / 'Not authorized to bid' -/
  | notAuthorized
  /-- 'Invalid auction or player' (missing row or auction not active) -/
  | invalidAuctionOrPlayer
  /-- 'Not the current player' -/
  | notCurrentPlayer
  /-- 'Insufficient budget' -/
  | insufficientBudget
  /-- 'You already have N players (maximum M)' -/
  | rosterFull
  /-- 'Bid must be higher than current bid' -/
  | bidTooLow
  /-- Python TypeError from comparing a float with None current_bid -/
  | typeError
  /-- 'Auction cannot be started' -/
  | cannotStart
deriving DecidableEq, Repr

/-- A row of the `Player` table (fields relevant to the core). -/
structure Player where
  id : String
  name : String
  position : String
  rating : ℚ
  starting_bid : ℚ
  current_bid : Option ℚ
  sold_to : Option String
  status : PlayerStatus
deriving DecidableEq, Repr

/-- A row of the `Participant` table. -/
structure Participant where
  id : String
  name : String
  role : Role
  is_active : Bool
deriving DecidableEq, Repr

/-- A row of the `Bid` table; `ts` is the logical creation timestamp. -/
structure Bid where
  player_id : String
  participant_id : String
  amount : ℚ
  ts : Nat
deriving DecidableEq, Repr

/-- The state of one auction: the `Auction` row together with its player,
participant and bid rows (in insertion order). -/
structure AuctionState where
  budget_per_team : ℚ
  max_players_per_team : Nat
  status : AuctionStatus
  currentPlayerId : Option String
  players : List Player
  participants : List Participant
  bids : List Bid
deriving DecidableEq, Repr

/-- `db.session.get(Player, player_id)` within one auction. -/
def findPlayer (s : AuctionState) (pid : String) : Option Player :=
  s.players.find? (fun p => p.id = pid)

/-- `db.session.get(Participant, participant_id)` within one auction. -/
def findParticipant (s : AuctionState) (qid : String) : Option Participant :=
  s.participants.find? (fun q => q.id = qid)

/-- Apply `g` to the player row with id `pid` (an UPDATE on that row). -/
def updatePlayer (s : AuctionState) (pid : String) (g : Player → Player) :
    AuctionState :=
  { s with players := s.players.map (fun p => if p.id = pid then g p else p) }

/-- `Participant.get_total_spending`: sum of `current_bid` over the players of
this auction sold to the participant.  Python `if player.current_bid:` skips
both `None` and `0.0`. -/
def totalSpending (s : AuctionState) (qid : String) : ℚ :=
  (s.players.filter (fun p => p.sold_to = some qid)).foldl
    (fun acc p =>
      match p.current_bid with
      | some c => if c ≠ 0 then acc + c else acc
      | none => acc) 0

/-- `Participant.get_remaining_budget`: 0 for non-bidders, else budget minus
total spending. -/
def remainingBudget (s : AuctionState) (q : Participant) : ℚ :=
  if q.role ≠ Role.bidder then 0
  else s.budget_per_team - totalSpending s q.id

/-- `Participant.can_afford_bid`. -/
def canAffordBid (s : AuctionState) (q : Participant) (amount : ℚ) : Bool :=
  if q.role ≠ Role.bidder then false
  else decide (remainingBudget s q ≥ amount)

/-- `Participant.get_player_count`: number of players sold to the participant. -/
def playerCount (s : AuctionState) (qid : String) : Nat :=
  (s.players.filter (fun p => p.sold_to = some qid)).length

/-- `Participant.can_bid_for_players`. -/
def canBidForPlayers (s : AuctionState) (q : Participant) : Bool :=
  if q.role ≠ Role.bidder then false
  else decide (playerCount s q.id < s.max_players_per_team)

/-- The `place_bid` socket handler (`handle_place_bid` in `src/app.py`),
checks in source order: participant exists with role bidder; auction and
player rows resolve and auction is active; player is the current player;
`can_afford_bid`; `can_bid_for_players`; `bid_amount <= player.current_bid`
rejected; then append the bid row and set `player.current_bid = bid_amount`. -/
def placeBid (s : AuctionState) (participantId playerId : String) (amount : ℚ) :
    Except Err AuctionState :=
  match findParticipant s participantId with
  | none => .error .notAuthorized
  | some part =>
    if part.role ≠ Role.bidder then .error .notAuthorized
    else
      match findPlayer s playerId with
      | none => .error .invalidAuctionOrPlayer
      | some player =>
        if s.status ≠ AuctionStatus.active then .error .invalidAuctionOrPlayer
        else if s.currentPlayerId ≠ some playerId then .error .notCurrentPlayer
        else if ¬ canAffordBid s part amount then .error .insufficientBudget
        else if ¬ canBidForPlayers s part then .error .rosterFull
        else
          match player.current_bid with
          | none => .error .typeError
          | some cur =>
            if amount ≤ cur then .error .bidTooLow
            else
              let bid : Bid :=
                { player_id := playerId, participant_id := participantId,
                  amount := amount, ts := s.bids.length }
              let s1 := { s with bids := s.bids ++ [bid] }
              .ok (updatePlayer s1 playerId
                    (fun p => { p with current_bid := some amount }))

/-- The bid rows for one player, in ledger (creation) order. -/
def bidsOn (s : AuctionState) (pid : String) : List Bid :=
  s.bids.filter (fun b => b.player_id = pid)

/-- `Bid.query.filter_by(player_id=...).order_by(Bid.amount.desc()).first()`:
the first row of a stable descending sort by amount, i.e. the earliest bid of
maximal amount. -/
def pickHighest : List Bid → Option Bid
  | [] => none
  | b :: rest =>
    match pickHighest rest with
    | none => some b
    | some hb => if hb.amount > b.amount then some hb else some b

/-- The `end_player_bidding` socket handler (`handle_end_player_bidding`):
admin-only; auction and player rows must resolve with auction active; player
must be the current player; then the player is marked sold to the highest
bidder (or unsold if no bid exists), and either the next available player is
seeded or the auction completes. -/
def endPlayerBidding (s : AuctionState) (participantId playerId : String) :
    Except Err AuctionState :=
  match findParticipant s participantId with
  | none => .error .notAuthorized
  | some part =>
    if part.role ≠ Role.admin then .error .notAuthorized
    else
      match findPlayer s playerId with
      | none => .error .invalidAuctionOrPlayer
      | some _player =>
        if s.status ≠ AuctionStatus.active then .error .invalidAuctionOrPlayer
        else if s.currentPlayerId ≠ some playerId then .error .notCurrentPlayer
        else
          let s1 :=
            match pickHighest (bidsOn s playerId) with
            | some hb =>
                updatePlayer s playerId
                  (fun p => { p with sold_to := some hb.participant_id,
                                     status := PlayerStatus.sold })
            | none =>
                updatePlayer s playerId
                  (fun p => { p with status := PlayerStatus.unsold })
          match s1.players.find? (fun p => p.status = PlayerStatus.available) with
          | some np =>
            .ok (updatePlayer { s1 with currentPlayerId := some np.id } np.id
                  (fun p => { p with status := PlayerStatus.bidding,
                                     current_bid := some p.starting_bid }))
          | none =>
            .ok { s1 with status := AuctionStatus.completed,
                          currentPlayerId := none }

/-- The `start_auction` route: admin-only, only from lobby; begins the
countdown. -/
def startAuction (s : AuctionState) (participantId : String) :
    Except Err AuctionState :=
  match findParticipant s participantId with
  | none => .error .notAuthorized
  | some part =>
    if part.role ≠ Role.admin then .error .notAuthorized
    else if s.status ≠ AuctionStatus.lobby then .error .cannotStart
    else .ok { s with status := AuctionStatus.countdown }

/-- Countdown expiry (tail of `countdown_thread`): set status active, pick the
first available player (if any) as current and seed its `current_bid` with its
`starting_bid`. -/
def countdownExpire (s : AuctionState) : AuctionState :=
  let s1 := { s with status := AuctionStatus.active }
  match s1.players.find? (fun p => p.status = PlayerStatus.available) with
  | some fp =>
    updatePlayer { s1 with currentPlayerId := some fp.id } fp.id
      (fun p => { p with status := PlayerStatus.bidding,
                         current_bid := some p.starting_bid })
  | none => s1

/-- A freshly created auction (`create_auction` route): status lobby, no
current player, empty ledger, all players available and unseeded, validated
budget (≥ $50,000) and roster cap (1..50); row ids are distinct (primary
keys). -/
def Init (s : AuctionState) : Prop :=
  s.status = AuctionStatus.lobby ∧
  s.currentPlayerId = none ∧
  s.bids = [] ∧
  (∀ p ∈ s.players, p.status = PlayerStatus.available ∧
      p.current_bid = none ∧ p.sold_to = none) ∧
  (s.players.map (fun p => p.id)).Nodup ∧
  (s.participants.map (fun q => q.id)).Nodup ∧
  50000 ≤ s.budget_per_team ∧
  1 ≤ s.max_players_per_team ∧ s.max_players_per_team ≤ 50

/-- One state-mutating operation on an auction, as admitted by the handlers
(rejected requests leave the state unchanged and are therefore not steps). -/
inductive Step : AuctionState → AuctionState → Prop where
  /-- `join_auction_post`: a new participant row; bidders only while the
  auction is in the lobby. -/
  | join (s : AuctionState) (q : Participant) :
      (q.role = Role.bidder → s.status = AuctionStatus.lobby) →
      q.id ∉ s.participants.map (fun r => r.id) →
      Step s { s with participants := s.participants ++ [q] }
  /-- an accepted `start_auction`. -/
  | start (s s' : AuctionState) (aid : String) :
      startAuction s aid = .ok s' → Step s s'
  /-- countdown expiry. -/
  | expire (s : AuctionState) :
      s.status = AuctionStatus.countdown → Step s (countdownExpire s)
  /-- an accepted bid. -/
  | bid (s s' : AuctionState) (qid pid : String) (amount : ℚ) :
      placeBid s qid pid amount = .ok s' → Step s s'
  /-- an accepted close of the current player. -/
  | close (s s' : AuctionState) (qid pid : String) :
      endPlayerBidding s qid pid = .ok s' → Step s s'

/-- States reachable from a freshly created auction. -/
inductive Reachable : AuctionState → Prop where
  | init (s : AuctionState) : Init s → Reachable s
  | step (s s' : AuctionState) : Reachable s → Step s s' → Reachable s'

/-- The observable effect of a close request: the handler either commits the
new state or emits an error and leaves the auction untouched. -/
def closeAttempt (s : AuctionState) (participantId playerId : String) :
    AuctionState :=
  match endPlayerBidding s participantId playerId with
  | .ok s' => s'
  | .error _ => s

/-- The contribution of one player row to `get_total_spending` (0 unless the
row carries a non-null, non-zero `current_bid`). -/
def bidContrib (p : Player) : ℚ :=
  match p.current_bid with
  | some c => if c ≠ 0 then c else 0
  | none => 0

instance : DecidableEq (Except Err AuctionState) := fun x y =>
  match x, y with
  | .ok a, .ok b =>
      if h : a = b then isTrue (by rw [h]) else isFalse (by simp [h])
  | .error e, .error f =>
      if h : e = f then isTrue (by rw [h]) else isFalse (by simp [h])
  | .ok _, .error _ => isFalse (by simp)
  | .error _, .ok _ => isFalse (by simp)

/-! ## Capability-code generation (`generate_short_code` in `src/models.py`)

`secrets.choice(string.ascii_uppercase + string.digits)` is modelled by an
entropy stream `pick : Nat → Fin codeAlphabet.length`; the three column
defaults of a new `Auction` row consume draws 0-7, 8-15 and 16-23. -/

/-- `string.ascii_uppercase + string.digits`: the 36-character alphabet. -/
def codeAlphabet : List Char := "ABCDEFGHIJKLMNOPQRSTUVWXYZ0123456789".toList

/-- `generate_short_code`: 8 draws from the alphabet starting at stream
position `start`. -/
def generate_short_code (pick : Nat → Fin codeAlphabet.length)
    (start : Nat) : String :=
  ⟨(List.range 8).map (fun i => codeAlphabet.get (pick (start + i)))⟩

/-- The three capability codes of one auction. -/
structure AuctionCodes where
  admin_code : String
  bidder_code : String
  visitor_code : String
deriving DecidableEq, Repr

/-- The three code-column defaults of a freshly inserted `Auction` row:
three independent `generate_short_code` calls, nothing else. -/
def newAuctionCodes (pick : Nat → Fin codeAlphabet.length) : AuctionCodes :=
  { admin_code := generate_short_code pick 0,
    bidder_code := generate_short_code pick 8,
    visitor_code := generate_short_code pick 16 }

/-- `create_auction` as seen by the code registry: the new row's codes are
inserted next to the existing auctions' codes (the route never reads the
existing codes). -/
def createAuctionCodes (existing : List AuctionCodes)
    (pick : Nat → Fin codeAlphabet.length) : AuctionCodes × List AuctionCodes :=
  (newAuctionCodes pick, existing ++ [newAuctionCodes pick])

/-- A degenerate entropy stream: every draw picks the first alphabet
character. -/
def pickZero : Nat → Fin codeAlphabet.length := fun _ => ⟨0, by decide⟩

/-- A pre-existing auction whose admin code is "AAAAAAAA". -/
def existingA : AuctionCodes :=
  { admin_code := "AAAAAAAA", bidder_code := "BBBBBBBB",
    visitor_code := "CCCCCCCC" }

/-! ## Concrete states (the §8 scenario and smaller fixtures) -/

/-- §8 scenario, player A ($500k starting bid). -/
def pA : Player :=
  { id := "A", name := "A", position := "FW", rating := 90,
    starting_bid := 500000, current_bid := none, sold_to := none,
    status := PlayerStatus.available }

/-- §8 scenario, player B ($450k starting bid). -/
def pB : Player :=
  { id := "B", name := "B", position := "MF", rating := 85,
    starting_bid := 450000, current_bid := none, sold_to := none,
    status := PlayerStatus.available }

def admP : Participant :=
  { id := "adm", name := "Admin", role := Role.admin, is_active := true }

def bidderX : Participant :=
  { id := "X", name := "X", role := Role.bidder, is_active := true }

def bidderY : Participant :=
  { id := "Y", name := "Y", role := Role.bidder, is_active := true }

/-- §8 auction as created: budget $2,000,000, max 4 players, lobby. -/
def scn0 : AuctionState :=
  { budget_per_team := 2000000, max_players_per_team := 4,
    status := AuctionStatus.lobby, currentPlayerId := none,
    players := [pA, pB], participants := [admP, bidderX, bidderY], bids := [] }

/-- §8 auction after the admin starts the countdown. -/
def scn0c : AuctionState := { scn0 with status := AuctionStatus.countdown }

/-- Player A while open for bidding at its starting bid. -/
def pAbid : Player :=
  { pA with status := PlayerStatus.bidding, current_bid := some 500000 }

/-- Player A once sold to Y at $600k. -/
def pAsold : Player :=
  { pA with
    status := PlayerStatus.sold,
    current_bid := some 600000,
    sold_to := some "Y" }

/-- Player B while open for bidding at its starting bid. -/
def pBbid : Player :=
  { pB with status := PlayerStatus.bidding, current_bid := some 450000 }

/-- Player B once closed with zero bids. -/
def pBuns : Player :=
  { pB with status := PlayerStatus.unsold, current_bid := some 450000 }

/-- §8 auction once the countdown expires: A is current, seeded at $500k. -/
def scn1 : AuctionState :=
  { scn0 with
    status := AuctionStatus.active,
    currentPlayerId := some "A",
    players := [pAbid, pB] }

def bidX550 : Bid :=
  { player_id := "A", participant_id := "X", amount := 550000, ts := 0 }

/-- §8 auction after X's accepted $550k bid on A. -/
def scn2 : AuctionState :=
  { scn1 with
    players := [{ pAbid with current_bid := some 550000 }, pB],
    bids := [bidX550] }

def bidY600 : Bid :=
  { player_id := "A", participant_id := "Y", amount := 600000, ts := 1 }

/-- §8 auction after Y's accepted $600k bid on A. -/
def scn3 : AuctionState :=
  { scn1 with
    players := [{ pAbid with current_bid := some 600000 }, pB],
    bids := [bidX550, bidY600] }

/-- §8 auction after A is closed: sold to Y at $600k, B is current at $450k. -/
def scn4 : AuctionState :=
  { scn1 with
    currentPlayerId := some "B",
    players := [pAsold, pBbid],
    bids := [bidX550, bidY600] }

/-- §8 auction after B is closed with zero bids: auction completed. -/
def scn5 : AuctionState :=
  { scn0 with
    status := AuctionStatus.completed,
    currentPlayerId := none,
    players := [pAsold, pBuns],
    bids := [bidX550, bidY600] }

/-- A $60,000 player in a $50,000-budget auction (for the check-order case). -/
def pC : Player :=
  { id := "C", name := "C", position := "GK", rating := 70,
    starting_bid := 60000, current_bid := none, sold_to := none,
    status := PlayerStatus.available }

/-- Tight-budget auction as created. -/
def cex0 : AuctionState :=
  { budget_per_team := 50000, max_players_per_team := 11,
    status := AuctionStatus.lobby, currentPlayerId := none,
    players := [pC], participants := [admP, bidderX], bids := [] }

def cex0c : AuctionState := { cex0 with status := AuctionStatus.countdown }

/-- Tight-budget auction once active: C is current, seeded at $60k. -/
def pCbid : Player :=
  { pC with status := PlayerStatus.bidding, current_bid := some 60000 }

def cex1 : AuctionState :=
  { cex0 with
    status := AuctionStatus.active,
    currentPlayerId := some "C",
    players := [pCbid] }

/-- Zero-player auction as created. -/
def zps0 : AuctionState :=
  { budget_per_team := 100000, max_players_per_team := 11,
    status := AuctionStatus.lobby, currentPlayerId := none,
    players := [], participants := [admP], bids := [] }

def zps0c : AuctionState := { zps0 with status := AuctionStatus.countdown }

/-- Zero-player auction after countdown expiry: active, no current player. -/
def zps : AuctionState :=
  { zps0 with status := AuctionStatus.active }

/-! ## General list lemmas -/

theorem find?_decomp {α : Type} (f : α → Bool) :
    ∀ (l : List α) (a : α), l.find? f = some a →
      ∃ l₁ l₂, l = l₁ ++ a :: l₂ ∧ (∀ x ∈ l₁, f x = false) ∧ f a = true
  | [], a, h => by simp at h
  | x :: l, a, h => by
    cases hx : f x with
    | true =>
      rw [List.find?_cons_of_pos _ hx, Option.some.injEq] at h
      subst h
      exact ⟨[], l, rfl, by simp, hx⟩
    | false =>
      rw [List.find?_cons_of_neg _ (by simp [hx])] at h
      obtain ⟨l₁, l₂, hl, h₁, ha⟩ := find?_decomp f l a h
      refine ⟨x :: l₁, l₂, by simp [hl], ?_, ha⟩
      intro y hy
      rcases List.mem_cons.mp hy with rfl | hy
      · exact hx
      · exact h₁ y hy

theorem mem_decomp_of_nodup {l : List Player} {p : Player}
    (hm : p ∈ l) (hnd : (l.map Player.id).Nodup) :
    ∃ l₁ l₂, l = l₁ ++ p :: l₂ ∧ (∀ x ∈ l₁, x.id ≠ p.id) ∧
      ∀ x ∈ l₂, x.id ≠ p.id := by
  obtain ⟨l₁, l₂, rfl⟩ := List.append_of_mem hm
  rw [List.map_append, List.map_cons] at hnd
  obtain ⟨h₁, h₂, hdisj⟩ := List.nodup_append.mp hnd
  refine ⟨l₁, l₂, rfl, ?_, ?_⟩
  · intro x hx heq
    exact hdisj (List.mem_map_of_mem Player.id hx)
      (heq ▸ List.mem_cons_self p.id _)
  · intro x hx heq
    exact (List.nodup_cons.mp h₂).1 (heq ▸ List.mem_map_of_mem Player.id hx)

/-- Elements with equal ids coincide in a list with `Nodup` ids. -/
theorem eq_of_id_eq {l : List Player} (hnd : (l.map Player.id).Nodup)
    {x y : Player} (hx : x ∈ l) (hy : y ∈ l) (h : x.id = y.id) : x = y :=
  List.inj_on_of_nodup_map hnd hx hy h

/-! ## pickHighest lemmas -/

theorem pickHighest_cons (b : Bid) (rest : List Bid) :
    pickHighest (b :: rest) =
      match pickHighest rest with
      | none => some b
      | some hb => if hb.amount > b.amount then some hb else some b := rfl

theorem pickHighest_eq_none : ∀ {l : List Bid}, pickHighest l = none → l = []
  | [], _ => rfl
  | b :: rest, h => by
    rw [pickHighest_cons] at h
    cases hr : pickHighest rest with
    | none => rw [hr] at h; exact absurd h (by simp)
    | some hb' =>
      rw [hr] at h
      dsimp only at h
      by_cases hgt : hb'.amount > b.amount <;> simp [hgt] at h

theorem pickHighest_mem : ∀ {l : List Bid} {hb : Bid},
    pickHighest l = some hb → hb ∈ l
  | [], hb, h => by simp [pickHighest] at h
  | b :: rest, hb, h => by
    rw [pickHighest_cons] at h
    cases hr : pickHighest rest with
    | none =>
      rw [hr] at h
      dsimp only at h
      exact (Option.some.injEq _ _ ▸ h) ▸ List.mem_cons_self b rest
    | some hb' =>
      rw [hr] at h
      dsimp only at h
      by_cases hgt : hb'.amount > b.amount
      · rw [if_pos hgt, Option.some.injEq] at h
        exact h ▸ List.mem_cons_of_mem b (pickHighest_mem hr)
      · rw [if_neg hgt, Option.some.injEq] at h
        exact h ▸ List.mem_cons_self b rest

theorem pickHighest_ub : ∀ {l : List Bid} {hb : Bid},
    pickHighest l = some hb → ∀ b ∈ l, b.amount ≤ hb.amount
  | [], hb, h => by simp [pickHighest] at h
  | b :: rest, hb, h => by
    rw [pickHighest_cons] at h
    cases hr : pickHighest rest with
    | none =>
      rw [hr] at h
      dsimp only at h
      rw [Option.some.injEq] at h
      subst h
      have : rest = [] := pickHighest_eq_none hr
      subst this
      intro x hx
      rcases List.mem_cons.mp hx with rfl | hx
      · exact le_refl _
      · simp at hx
    | some hb' =>
      rw [hr] at h
      dsimp only at h
      by_cases hgt : hb'.amount > b.amount
      · rw [if_pos hgt, Option.some.injEq] at h
        subst h
        intro x hx
        rcases List.mem_cons.mp hx with rfl | hx
        · exact le_of_lt hgt
        · exact pickHighest_ub hr x hx
      · rw [if_neg hgt, Option.some.injEq] at h
        subst h
        intro x hx
        rcases List.mem_cons.mp hx with rfl | hx
        · exact le_refl _
        · exact le_trans (pickHighest_ub hr x hx) (not_lt.mp hgt)

theorem pickHighest_isSome {l : List Bid} (h : l ≠ []) :
    ∃ hb, pickHighest l = some hb := by
  cases hp : pickHighest l with
  | none => exact absurd (pickHighest_eq_none hp) h
  | some hb => exact ⟨hb, rfl⟩

/-- `pickHighest` picks the earliest bid of maximal amount: everything before
it in the ledger is strictly smaller. -/
theorem pickHighest_earliest : ∀ {l : List Bid} {hb : Bid},
    pickHighest l = some hb →
      ∃ l₁ l₂, l = l₁ ++ hb :: l₂ ∧ ∀ b ∈ l₁, b.amount < hb.amount
  | [], hb, h => by simp [pickHighest] at h
  | b :: rest, hb, h => by
    rw [pickHighest_cons] at h
    cases hr : pickHighest rest with
    | none =>
      rw [hr] at h
      dsimp only at h
      rw [Option.some.injEq] at h
      exact ⟨[], rest, by simp [h], by simp⟩
    | some hb' =>
      rw [hr] at h
      dsimp only at h
      by_cases hgt : hb'.amount > b.amount
      · rw [if_pos hgt, Option.some.injEq] at h
        subst h
        obtain ⟨l₁, l₂, heq, hlt⟩ := pickHighest_earliest hr
        refine ⟨b :: l₁, l₂, by simp [heq], ?_⟩
        intro x hx
        rcases List.mem_cons.mp hx with rfl | hx
        · exact hgt
        · exact hlt x hx
      · rw [if_neg hgt, Option.some.injEq] at h
        subst h
        exact ⟨[], rest, rfl, by simp⟩

/-- Appending a strictly larger bid makes it the new highest bid. -/
theorem pickHighest_append_gt : ∀ {l : List Bid} {a : Bid},
    (∀ b ∈ l, b.amount < a.amount) → pickHighest (l ++ [a]) = some a
  | [], a, _ => by rw [List.nil_append, pickHighest_cons]; rfl
  | b :: rest, a, h => by
    rw [List.cons_append, pickHighest_cons,
      pickHighest_append_gt (fun x hx => h x (List.mem_cons_of_mem b hx))]
    dsimp only
    rw [if_pos (h b (List.mem_cons_self b rest))]

/-! ## updatePlayer, bidsOn, spending and count lemmas -/

theorem updatePlayer_budget (s : AuctionState) (pid : String) (g : Player → Player) :
    (updatePlayer s pid g).budget_per_team = s.budget_per_team := rfl

theorem updatePlayer_max (s : AuctionState) (pid : String) (g : Player → Player) :
    (updatePlayer s pid g).max_players_per_team = s.max_players_per_team := rfl

theorem updatePlayer_bids (s : AuctionState) (pid : String) (g : Player → Player) :
    (updatePlayer s pid g).bids = s.bids := rfl

theorem updatePlayer_current (s : AuctionState) (pid : String) (g : Player → Player) :
    (updatePlayer s pid g).currentPlayerId = s.currentPlayerId := rfl

theorem updatePlayer_status (s : AuctionState) (pid : String) (g : Player → Player) :
    (updatePlayer s pid g).status = s.status := rfl

theorem mem_updatePlayer {s : AuctionState} {pid : String} {g : Player → Player}
    {x : Player} :
    x ∈ (updatePlayer s pid g).players ↔
      ∃ y ∈ s.players, x = if y.id = pid then g y else y := by
  simp only [updatePlayer, List.mem_map]
  constructor
  · rintro ⟨y, hy, rfl⟩; exact ⟨y, hy, rfl⟩
  · rintro ⟨y, hy, rfl⟩; exact ⟨y, hy, rfl⟩

theorem updatePlayer_map_id (s : AuctionState) (pid : String) (g : Player → Player)
    (hg : ∀ p, (g p).id = p.id) :
    (updatePlayer s pid g).players.map Player.id = s.players.map Player.id := by
  simp only [updatePlayer, List.map_map]
  refine List.map_congr_left ?_
  intro p _
  by_cases h : p.id = pid <;> simp [h, hg]

/-- If `s.players` decomposes at the (unique) player with id `pid`, an UPDATE
keyed on `pid` rewrites exactly that element. -/
theorem updatePlayer_players_decomp {s : AuctionState} {pid : String}
    {l₁ l₂ : List Player} {a : Player} (hl : s.players = l₁ ++ a :: l₂)
    (ha : a.id = pid) (h₁ : ∀ x ∈ l₁, x.id ≠ pid) (h₂ : ∀ x ∈ l₂, x.id ≠ pid)
    (g : Player → Player) :
    (updatePlayer s pid g).players = l₁ ++ g a :: l₂ := by
  have e₁ : l₁.map (fun p => if p.id = pid then g p else p) = l₁.map id :=
    List.map_congr_left (fun x hx => by simp [h₁ x hx])
  have e₂ : l₂.map (fun p => if p.id = pid then g p else p) = l₂.map id :=
    List.map_congr_left (fun x hx => by simp [h₂ x hx])
  simp only [updatePlayer, hl, List.map_append, List.map_cons, if_pos ha,
    e₁, e₂, List.map_id]

/-- `findPlayer` hit + Nodup ids: decompose the catalog at that player. -/
theorem findPlayer_decomp {s : AuctionState} {pid : String} {a : Player}
    (h : findPlayer s pid = some a) (hnd : (s.players.map Player.id).Nodup) :
    a.id = pid ∧ ∃ l₁ l₂, s.players = l₁ ++ a :: l₂ ∧
      (∀ x ∈ l₁, x.id ≠ pid) ∧ (∀ x ∈ l₂, x.id ≠ pid) := by
  have ha : a.id = pid := by simpa using List.find?_some h
  obtain ⟨l₁, l₂, hl, hf, _⟩ := find?_decomp _ _ _ h
  refine ⟨ha, l₁, l₂, hl, ?_, ?_⟩
  · intro x hx
    have := hf x hx
    simpa using this
  · intro x hx heq
    obtain ⟨m₁, m₂, hm, _, hr2⟩ :=
      mem_decomp_of_nodup (l := s.players) (p := a)
        (hl ▸ List.mem_append_right l₁ (List.mem_cons_self a l₂)) hnd
    -- uniqueness via Nodup directly:
    have hxmem : x ∈ s.players := hl ▸ List.mem_append_right l₁
      (List.mem_cons_of_mem a hx)
    have hamem : a ∈ s.players := hl ▸ List.mem_append_right l₁
      (List.mem_cons_self a l₂)
    have : x = a := eq_of_id_eq hnd hxmem hamem (by rw [heq, ha])
    subst this
    -- x appears twice: once as the pivot, once in l₂ — contradicts Nodup
    have : ¬ (s.players.map Player.id).Nodup := by
      rw [hl, List.map_append, List.map_cons]
      intro hn
      obtain ⟨_, h2, _⟩ := List.nodup_append.mp hn
      exact (List.nodup_cons.mp h2).1 (List.mem_map_of_mem Player.id hx)
    exact this hnd

theorem findPlayer_mem {s : AuctionState} {pid : String} {a : Player}
    (h : findPlayer s pid = some a) : a ∈ s.players :=
  List.mem_of_find?_eq_some h

theorem findPlayer_id {s : AuctionState} {pid : String} {a : Player}
    (h : findPlayer s pid = some a) : a.id = pid := by
  simpa using List.find?_some h

/-- With Nodup ids, `findPlayer` returns any member with matching id. -/
theorem findPlayer_eq_of_mem {s : AuctionState} {p : Player}
    (hnd : (s.players.map Player.id).Nodup) (hm : p ∈ s.players) :
    findPlayer s p.id = some p := by
  cases hf : findPlayer s p.id with
  | none =>
    rw [findPlayer, List.find?_eq_none] at hf
    exact absurd (by simp) (hf p hm)
  | some a =>
    have := eq_of_id_eq hnd (findPlayer_mem hf) hm (findPlayer_id hf)
    rw [this]

theorem bidsOn_bids_append (s : AuctionState) (b : Bid) (pid : String) :
    bidsOn { s with bids := s.bids ++ [b] } pid =
      bidsOn s pid ++ if b.player_id = pid then [b] else [] := by
  simp only [bidsOn, List.filter_append]
  congr 1
  by_cases h : b.player_id = pid <;> simp [h]

theorem bidsOn_updatePlayer (s : AuctionState) (pid qid : String)
    (g : Player → Player) :
    bidsOn (updatePlayer s pid g) qid = bidsOn s qid := rfl

/-- `get_total_spending` as a sum over all player rows. -/
theorem totalSpending_eq_sum (s : AuctionState) (qid : String) :
    totalSpending s qid =
      (s.players.map (fun p => if p.sold_to = some qid then bidContrib p else 0)).sum := by
  have hfold : ∀ (l : List Player) (acc : ℚ),
      l.foldl (fun acc p =>
        match p.current_bid with
        | some c => if c ≠ 0 then acc + c else acc
        | none => acc) acc = acc + (l.map bidContrib).sum := by
    intro l
    induction l with
    | nil => intro acc; simp
    | cons p l ih =>
      intro acc
      rw [List.foldl_cons, ih, List.map_cons, List.sum_cons]
      show (match p.current_bid with
        | some c => if c ≠ 0 then acc + c else acc
        | none => acc) + (l.map bidContrib).sum = acc + (bidContrib p + (l.map bidContrib).sum)
      rw [bidContrib]
      cases p.current_bid with
      | none => simp
      | some c =>
        by_cases hc : c = 0
        · simp [hc]
        · simp only [hc, ite_false, if_neg, ne_eq, not_false_iff, ite_true, if_pos]
          ring
  rw [totalSpending, hfold, zero_add]
  induction s.players with
  | nil => simp
  | cons p l ih =>
    by_cases h : p.sold_to = some qid
    · simp [List.filter_cons, h, ih]
    · simp [List.filter_cons, h, ih]

/-- `get_player_count` as a sum over all player rows. -/
theorem playerCount_eq_sum (s : AuctionState) (qid : String) :
    playerCount s qid =
      (s.players.map (fun p => if p.sold_to = some qid then 1 else 0)).sum := by
  rw [playerCount]
  induction s.players with
  | nil => simp
  | cons p l ih =>
    by_cases h : p.sold_to = some qid <;>
      simp [List.filter_cons, h, ih, Nat.add_comm]

/-! ## Inversion lemmas for accepted operations -/

theorem placeBid_ok_inv {s s' : AuctionState} {qid pid : String} {a : ℚ}
    (h : placeBid s qid pid a = .ok s') :
    ∃ part player cur,
      findParticipant s qid = some part ∧ part.role = Role.bidder ∧
      findPlayer s pid = some player ∧ s.status = AuctionStatus.active ∧
      s.currentPlayerId = some pid ∧
      canAffordBid s part a = true ∧ canBidForPlayers s part = true ∧
      player.current_bid = some cur ∧ cur < a ∧
      s' = updatePlayer
        { s with bids := s.bids ++
            [{ player_id := pid, participant_id := qid, amount := a,
               ts := s.bids.length }] }
        pid (fun p => { p with current_bid := some a }) := by
  rw [placeBid] at h
  cases hq : findParticipant s qid with
  | none => rw [hq] at h; exact absurd h (by simp)
  | some part =>
    rw [hq] at h
    dsimp only at h
    by_cases hrole : part.role ≠ Role.bidder
    · rw [if_pos hrole] at h; exact absurd h (by simp)
    rw [if_neg hrole] at h
    cases hp : findPlayer s pid with
    | none => rw [hp] at h; exact absurd h (by simp)
    | some player =>
      rw [hp] at h
      dsimp only at h
      by_cases hst : s.status ≠ AuctionStatus.active
      · rw [if_pos hst] at h; exact absurd h (by simp)
      rw [if_neg hst] at h
      by_cases hcur : s.currentPlayerId ≠ some pid
      · rw [if_pos hcur] at h; exact absurd h (by simp)
      rw [if_neg hcur] at h
      by_cases hca : canAffordBid s part a = true
      · rw [if_neg (not_not_intro hca)] at h
        by_cases hcb : canBidForPlayers s part = true
        · rw [if_neg (not_not_intro hcb)] at h
          cases hcb2 : player.current_bid with
          | none => rw [hcb2] at h; exact absurd h (by simp)
          | some cur =>
            rw [hcb2] at h
            dsimp only at h
            by_cases hle : a ≤ cur
            · rw [if_pos hle] at h; exact absurd h (by simp)
            · rw [if_neg hle] at h
              refine ⟨part, player, cur, rfl, not_not.mp hrole, rfl,
                not_not.mp hst, not_not.mp hcur, hca, hcb, hcb2,
                not_le.mp hle, ?_⟩
              exact (Except.ok.injEq _ _ ▸ h).symm
        · rw [if_pos hcb] at h; exact absurd h (by simp)
      · rw [if_pos hca] at h; exact absurd h (by simp)

theorem endPlayerBidding_ok_inv {s s' : AuctionState} {qid pid : String}
    (h : endPlayerBidding s qid pid = .ok s') :
    ∃ part, findParticipant s qid = some part ∧ part.role = Role.admin ∧
      (∃ player, findPlayer s pid = some player) ∧
      s.status = AuctionStatus.active ∧ s.currentPlayerId = some pid ∧
      ∃ s1,
        ((∃ hb, pickHighest (bidsOn s pid) = some hb ∧
            s1 = updatePlayer s pid
              (fun p => { p with sold_to := some hb.participant_id,
                                 status := PlayerStatus.sold })) ∨
          (pickHighest (bidsOn s pid) = none ∧
            s1 = updatePlayer s pid
              (fun p => { p with status := PlayerStatus.unsold }))) ∧
        ((∃ np, s1.players.find? (fun p => p.status = PlayerStatus.available) = some np ∧
            s' = updatePlayer { s1 with currentPlayerId := some np.id } np.id
              (fun p => { p with status := PlayerStatus.bidding,
                                 current_bid := some p.starting_bid })) ∨
          (s1.players.find? (fun p => p.status = PlayerStatus.available) = none ∧
            s' = { s1 with status := AuctionStatus.completed,
                           currentPlayerId := none })) := by
  rw [endPlayerBidding] at h
  cases hq : findParticipant s qid with
  | none => rw [hq] at h; exact absurd h (by simp)
  | some part =>
    rw [hq] at h
    dsimp only at h
    by_cases hrole : part.role ≠ Role.admin
    · rw [if_pos hrole] at h; exact absurd h (by simp)
    rw [if_neg hrole] at h
    cases hp : findPlayer s pid with
    | none => rw [hp] at h; exact absurd h (by simp)
    | some player =>
      rw [hp] at h
      dsimp only at h
      by_cases hst : s.status ≠ AuctionStatus.active
      · rw [if_pos hst] at h; exact absurd h (by simp)
      rw [if_neg hst] at h
      by_cases hcur : s.currentPlayerId ≠ some pid
      · rw [if_pos hcur] at h; exact absurd h (by simp)
      rw [if_neg hcur] at h
      refine ⟨part, rfl, not_not.mp hrole, ⟨player, rfl⟩, not_not.mp hst,
        not_not.mp hcur, ?_⟩
      cases hpk : pickHighest (bidsOn s pid) with
      | some hb =>
        rw [hpk] at h
        dsimp only at h
        refine ⟨_, Or.inl ⟨hb, rfl, rfl⟩, ?_⟩
        cases hnp : (updatePlayer s pid
            (fun p => { p with sold_to := some hb.participant_id,
                               status := PlayerStatus.sold })).players.find?
            (fun p => p.status = PlayerStatus.available) with
        | some np =>
          rw [hnp] at h
          dsimp only at h
          exact Or.inl ⟨np, rfl, (Except.ok.injEq _ _ ▸ h).symm⟩
        | none =>
          rw [hnp] at h
          dsimp only at h
          exact Or.inr ⟨rfl, (Except.ok.injEq _ _ ▸ h).symm⟩
      | none =>
        rw [hpk] at h
        dsimp only at h
        refine ⟨_, Or.inr ⟨rfl, rfl⟩, ?_⟩
        cases hnp : (updatePlayer s pid
            (fun p => { p with status := PlayerStatus.unsold })).players.find?
            (fun p => p.status = PlayerStatus.available) with
        | some np =>
          rw [hnp] at h
          dsimp only at h
          exact Or.inl ⟨np, rfl, (Except.ok.injEq _ _ ▸ h).symm⟩
        | none =>
          rw [hnp] at h
          dsimp only at h
          exact Or.inr ⟨rfl, (Except.ok.injEq _ _ ▸ h).symm⟩

theorem startAuction_ok_inv {s s' : AuctionState} {qid : String}
    (h : startAuction s qid = .ok s') :
    ∃ part, findParticipant s qid = some part ∧ part.role = Role.admin ∧
      s.status = AuctionStatus.lobby ∧
      s' = { s with status := AuctionStatus.countdown } := by
  rw [startAuction] at h
  cases hq : findParticipant s qid with
  | none => rw [hq] at h; exact absurd h (by simp)
  | some part =>
    rw [hq] at h
    dsimp only at h
    by_cases hrole : part.role ≠ Role.admin
    · rw [if_pos hrole] at h; exact absurd h (by simp)
    rw [if_neg hrole] at h
    by_cases hst : s.status ≠ AuctionStatus.lobby
    · rw [if_pos hst] at h; exact absurd h (by simp)
    rw [if_neg hst] at h
    exact ⟨part, rfl, not_not.mp hrole, not_not.mp hst,
      (Except.ok.injEq _ _ ▸ h).symm⟩

/-! ## The inductive invariant of reachable auction states -/

/-- Invariant of every reachable auction state.  `spendCap`, `countCap` and
`winnerFunds` quantify over arbitrary participant-id strings so they do not
depend on the participant table. -/
structure Inv (s : AuctionState) : Prop where
  playersNodup : (s.players.map Player.id).Nodup
  budgetMin : 50000 ≤ s.budget_per_team
  curActive : ∀ pid, s.currentPlayerId = some pid → s.status = AuctionStatus.active
  curBidding : ∀ pid, s.currentPlayerId = some pid →
    ∃ p ∈ s.players, p.id = pid ∧ p.status = PlayerStatus.bidding
  biddingCur : ∀ p ∈ s.players, p.status = PlayerStatus.bidding →
    s.currentPlayerId = some p.id
  biddingSeeded : ∀ p ∈ s.players, p.status = PlayerStatus.bidding →
    p.sold_to = none ∧ ∃ c, p.current_bid = some c ∧ p.starting_bid ≤ c
  biddingFresh : ∀ p ∈ s.players, p.status = PlayerStatus.bidding →
    bidsOn s p.id = [] → p.current_bid = some p.starting_bid
  availClean : ∀ p ∈ s.players, p.status = PlayerStatus.available →
    p.current_bid = none ∧ p.sold_to = none ∧ bidsOn s p.id = []
  maxCur : ∀ p ∈ s.players, p.status = PlayerStatus.bidding →
    ∀ hb, pickHighest (bidsOn s p.id) = some hb → p.current_bid = some hb.amount
  spendCap : ∀ qid : String, totalSpending s qid ≤ s.budget_per_team
  countCap : ∀ qid : String, playerCount s qid ≤ s.max_players_per_team
  winnerFunds : ∀ p ∈ s.players, p.status = PlayerStatus.bidding →
    ∀ hb, pickHighest (bidsOn s p.id) = some hb →
      totalSpending s hb.participant_id + hb.amount ≤ s.budget_per_team ∧
      playerCount s hb.participant_id < s.max_players_per_team
  tsPW : s.bids.Pairwise (fun b₁ b₂ => b₁.ts < b₂.ts)
  tsLt : ∀ b ∈ s.bids, b.ts < s.bids.length

theorem totalSpending_updatePlayer_eq {s : AuctionState} {pid : String}
    {g : Player → Player} {qid : String}
    (h : ∀ y ∈ s.players, y.id = pid →
      (if (g y).sold_to = some qid then bidContrib (g y) else 0) =
      (if y.sold_to = some qid then bidContrib y else 0)) :
    totalSpending (updatePlayer s pid g) qid = totalSpending s qid := by
  rw [totalSpending_eq_sum, totalSpending_eq_sum]
  show ((s.players.map (fun p => if p.id = pid then g p else p)).map _).sum = _
  rw [List.map_map]
  refine congrArg List.sum (List.map_congr_left ?_)
  intro y hy
  by_cases hid : y.id = pid
  · simpa [Function.comp, if_pos hid] using h y hy hid
  · simp [Function.comp, if_neg hid]

theorem playerCount_updatePlayer_eq {s : AuctionState} {pid : String}
    {g : Player → Player} {qid : String}
    (h : ∀ y ∈ s.players, y.id = pid → (g y).sold_to = y.sold_to) :
    playerCount (updatePlayer s pid g) qid = playerCount s qid := by
  rw [playerCount_eq_sum, playerCount_eq_sum]
  show ((s.players.map (fun p => if p.id = pid then g p else p)).map _).sum = _
  rw [List.map_map]
  refine congrArg List.sum (List.map_congr_left ?_)
  intro y hy
  by_cases hid : y.id = pid
  · simp [Function.comp, if_pos hid, h y hy hid]
  · simp [Function.comp, if_neg hid]

theorem totalSpending_of_decomp {s : AuctionState} (qid : String)
    {l₁ l₂ : List Player} {a : Player} (hl : s.players = l₁ ++ a :: l₂) :
    totalSpending s qid =
      (l₁.map (fun p => if p.sold_to = some qid then bidContrib p else 0)).sum
      + ((if a.sold_to = some qid then bidContrib a else 0)
      + (l₂.map (fun p => if p.sold_to = some qid then bidContrib p else 0)).sum) := by
  rw [totalSpending_eq_sum, hl]
  simp [List.map_append, List.sum_append]

theorem playerCount_of_decomp {s : AuctionState} (qid : String)
    {l₁ l₂ : List Player} {a : Player} (hl : s.players = l₁ ++ a :: l₂) :
    playerCount s qid =
      (l₁.map (fun p => if p.sold_to = some qid then 1 else 0)).sum
      + ((if a.sold_to = some qid then 1 else 0)
      + (l₂.map (fun p => if p.sold_to = some qid then 1 else 0)).sum) := by
  rw [playerCount_eq_sum, hl]
  simp [List.map_append, List.sum_append]

theorem totalSpending_zero_of_unowned {s : AuctionState} {qid : String}
    (h : ∀ p ∈ s.players, p.sold_to = none) : totalSpending s qid = 0 := by
  rw [totalSpending_eq_sum]
  rw [List.map_congr_left (g := fun _ => (0 : ℚ))]
  · simp
  · intro p hp
    simp [h p hp]

theorem playerCount_zero_of_unowned {s : AuctionState} {qid : String}
    (h : ∀ p ∈ s.players, p.sold_to = none) : playerCount s qid = 0 := by
  rw [playerCount_eq_sum]
  rw [List.map_congr_left (g := fun _ => (0 : ℕ))]
  · simp
  · intro p hp
    simp [h p hp]

/-- A freshly created auction satisfies the invariant. -/
theorem Inv_of_Init {s : AuctionState} (h : Init s) : Inv s := by
  obtain ⟨hst, hcur, hbids, hpl, hnd, _hqd, hbud, hmax, _⟩ := h
  have hunowned : ∀ p ∈ s.players, p.sold_to = none := fun p hp => (hpl p hp).2.2
  refine ⟨hnd, hbud, ?_, ?_, ?_, ?_, ?_, ?_, ?_, ?_, ?_, ?_, ?_, ?_⟩
  · intro pid hpid; rw [hcur] at hpid; exact absurd hpid (by simp)
  · intro pid hpid; rw [hcur] at hpid; exact absurd hpid (by simp)
  · intro p hp hb; rw [(hpl p hp).1] at hb; exact absurd hb (by simp)
  · intro p hp hb; rw [(hpl p hp).1] at hb; exact absurd hb (by simp)
  · intro p hp hb; rw [(hpl p hp).1] at hb; exact absurd hb (by simp)
  · intro p hp _
    exact ⟨(hpl p hp).2.1, hunowned p hp, by simp [bidsOn, hbids]⟩
  · intro p hp hb; rw [(hpl p hp).1] at hb; exact absurd hb (by simp)
  · intro qid
    rw [totalSpending_zero_of_unowned hunowned]
    linarith
  · intro qid
    rw [playerCount_zero_of_unowned hunowned]
    exact Nat.zero_le _
  · intro p hp hb; rw [(hpl p hp).1] at hb; exact absurd hb (by simp)
  · rw [hbids]; exact List.Pairwise.nil
  · intro b hb; rw [hbids] at hb; exact absurd hb (by simp)

theorem no_bidding_of_not_active {s : AuctionState} (inv : Inv s)
    (h : s.status ≠ AuctionStatus.active) :
    ∀ p ∈ s.players, p.status ≠ PlayerStatus.bidding := by
  intro p hp hb
  exact h (inv.curActive p.id (inv.biddingCur p hp hb))

theorem Inv_join {s : AuctionState} (inv : Inv s) (q : Participant) :
    Inv { s with participants := s.participants ++ [q] } := by
  obtain ⟨h1, h2, h3, h4, h5, h6, h7, h8, h9, h10, h11, h12, h13, h14⟩ := inv
  exact ⟨h1, h2, h3, h4, h5, h6, h7, h8, h9, h10, h11, h12, h13, h14⟩

theorem Inv_start {s s' : AuctionState} (inv : Inv s) {qid : String}
    (h : startAuction s qid = .ok s') : Inv s' := by
  obtain ⟨part, _, _, hst, rfl⟩ := startAuction_ok_inv h
  have hna : ∀ p ∈ s.players, p.status ≠ PlayerStatus.bidding :=
    no_bidding_of_not_active inv (by rw [hst]; simp)
  refine ⟨inv.playersNodup, inv.budgetMin, ?_, ?_, ?_, ?_, ?_, ?_, ?_,
    inv.spendCap, inv.countCap, ?_, inv.tsPW, inv.tsLt⟩
  · intro pid hpid
    have := inv.curActive pid hpid
    rw [hst] at this
    exact absurd this (by simp)
  · intro pid hpid
    have := inv.curActive pid hpid
    rw [hst] at this
    exact absurd this (by simp)
  · intro p hp hb; exact absurd hb (hna p hp)
  · intro p hp hb; exact absurd hb (hna p hp)
  · intro p hp hb; exact absurd hb (hna p hp)
  · exact inv.availClean
  · intro p hp hb; exact absurd hb (hna p hp)
  · intro p hp hb; exact absurd hb (hna p hp)

theorem Inv_expire {s : AuctionState} (inv : Inv s)
    (hcd : s.status = AuctionStatus.countdown) : Inv (countdownExpire s) := by
  have hna : ∀ p ∈ s.players, p.status ≠ PlayerStatus.bidding :=
    no_bidding_of_not_active inv (by rw [hcd]; simp)
  rw [countdownExpire]
  cases hfp : ({ s with status := AuctionStatus.active } :
      AuctionState).players.find? (fun p => p.status = PlayerStatus.available) with
  | none =>
    dsimp only
    refine ⟨inv.playersNodup, inv.budgetMin, ?_, ?_, ?_, ?_, ?_, ?_, ?_,
      inv.spendCap, inv.countCap, ?_, inv.tsPW, inv.tsLt⟩
    · intro pid hpid
      rfl
    · intro pid hpid
      have := inv.curActive pid hpid
      rw [hcd] at this
      exact absurd this (by simp)
    · intro p hp hb; exact absurd hb (hna p hp)
    · intro p hp hb; exact absurd hb (hna p hp)
    · intro p hp hb; exact absurd hb (hna p hp)
    · exact inv.availClean
    · intro p hp hb; exact absurd hb (hna p hp)
    · intro p hp hb; exact absurd hb (hna p hp)
  | some fp =>
    dsimp only
    have hfpav : fp.status = PlayerStatus.available := by
      simpa using List.find?_some hfp
    have hfpmem : fp ∈ s.players := List.mem_of_find?_eq_some hfp
    obtain ⟨hfcb, hfso, hfbids⟩ := inv.availClean fp hfpmem hfpav
    obtain ⟨m₁, m₂, hm, hm₁, hm₂⟩ := mem_decomp_of_nodup hfpmem inv.playersNodup
    set s2 : AuctionState :=
      { s with status := AuctionStatus.active, currentPlayerId := some fp.id }
      with hs2
    have hs2p : s2.players = m₁ ++ fp :: m₂ := hm
    set gSeed : Player → Player := fun p =>
      { p with status := PlayerStatus.bidding,
               current_bid := some p.starting_bid } with hgseed
    have hup : (updatePlayer s2 fp.id gSeed).players = m₁ ++ gSeed fp :: m₂ :=
      updatePlayer_players_decomp hs2p rfl hm₁ hm₂ gSeed
    have hmemchar : ∀ x ∈ (updatePlayer s2 fp.id gSeed).players,
        x = gSeed fp ∨ (x ∈ s.players ∧ x.id ≠ fp.id) := by
      intro x hx
      obtain ⟨y, hy, rfl⟩ := mem_updatePlayer.mp hx
      by_cases hid : y.id = fp.id
      · left
        rw [if_pos hid]
        rw [eq_of_id_eq inv.playersNodup hy hfpmem hid]
      · right
        rw [if_neg hid]
        exact ⟨hy, hid⟩
    have hbidsEq : ∀ pid, bidsOn (updatePlayer s2 fp.id gSeed) pid = bidsOn s pid :=
      fun pid => rfl
    refine ⟨?_, inv.budgetMin, ?_, ?_, ?_, ?_, ?_, ?_, ?_, ?_, ?_, ?_,
      inv.tsPW, inv.tsLt⟩
    · rw [updatePlayer_map_id s2 fp.id gSeed (fun p => rfl)]
      exact inv.playersNodup
    · intro pid hpid
      rfl
    · intro pid hpid
      simp only [updatePlayer_current] at hpid
      have hpe : fp.id = pid := by
        have h2 : s2.currentPlayerId = some pid := hpid
        rw [hs2] at h2
        simpa using h2
      subst hpe
      refine ⟨gSeed fp, ?_, rfl, rfl⟩
      rw [hup]
      exact List.mem_append_right m₁ (List.mem_cons_self _ m₂)
    · intro p hp hb
      rcases hmemchar p hp with rfl | ⟨hmem, _⟩
      · rfl
      · exact absurd hb (hna p hmem)
    · intro p hp hb
      rcases hmemchar p hp with rfl | ⟨hmem, _⟩
      · exact ⟨hfso, fp.starting_bid, rfl, le_refl _⟩
      · exact absurd hb (hna p hmem)
    · intro p hp hb _
      rcases hmemchar p hp with rfl | ⟨hmem, _⟩
      · rfl
      · exact absurd hb (hna p hmem)
    · intro p hp hav
      rcases hmemchar p hp with rfl | ⟨hmem, _⟩
      · exact absurd hav (by simp [hgseed])
      · obtain ⟨e1, e2, e3⟩ := inv.availClean p hmem hav
        exact ⟨e1, e2, by rw [hbidsEq]; exact e3⟩
    · intro p hp hbid hb hpk
      rcases hmemchar p hp with rfl | ⟨hmem, _⟩
      · rw [hbidsEq] at hpk
        have he : bidsOn s (gSeed fp).id = [] := hfbids
        rw [he] at hpk
        exact absurd hpk (by simp [pickHighest])
      · exact absurd hbid (hna p hmem)
    · intro qid
      have : totalSpending (updatePlayer s2 fp.id gSeed) qid = totalSpending s2 qid := by
        refine totalSpending_updatePlayer_eq ?_
        intro y hy hid
        have : y = fp := eq_of_id_eq inv.playersNodup hy hfpmem hid
        subst this
        simp [hgseed, hfso]
      rw [this]
      exact inv.spendCap qid
    · intro qid
      have : playerCount (updatePlayer s2 fp.id gSeed) qid = playerCount s2 qid := by
        refine playerCount_updatePlayer_eq ?_
        intro y _ _
        rfl
      rw [this]
      exact inv.countCap qid
    · intro p hp hbid hb hpk
      rcases hmemchar p hp with rfl | ⟨hmem, _⟩
      · rw [hbidsEq] at hpk
        have he : bidsOn s (gSeed fp).id = [] := hfbids
        rw [he] at hpk
        exact absurd hpk (by simp [pickHighest])
      · exact absurd hbid (hna p hmem)

theorem findParticipant_id {s : AuctionState} {qid : String} {q : Participant}
    (h : findParticipant s qid = some q) : q.id = qid := by
  simpa using List.find?_some h

theorem canAffordBid_spec {s : AuctionState} {q : Participant} {a : ℚ}
    (hrole : q.role = Role.bidder) (h : canAffordBid s q a = true) :
    totalSpending s q.id + a ≤ s.budget_per_team := by
  rw [canAffordBid, if_neg (fun hne => hne hrole)] at h
  have h2 := of_decide_eq_true h
  rw [remainingBudget, if_neg (fun hne => hne hrole)] at h2
  linarith

theorem canBidForPlayers_spec {s : AuctionState} {q : Participant}
    (hrole : q.role = Role.bidder) (h : canBidForPlayers s q = true) :
    playerCount s q.id < s.max_players_per_team := by
  rw [canBidForPlayers, if_neg (fun hne => hne hrole)] at h
  exact of_decide_eq_true h

theorem Inv_bid {s s' : AuctionState} (inv : Inv s) {qid pid : String} {a : ℚ}
    (h : placeBid s qid pid a = .ok s') : Inv s' := by
  obtain ⟨part, player, cur, hq, hrole, hp, hst, hcur, hca, hcb, hpcb, hlt, rfl⟩ :=
    placeBid_ok_inv h
  obtain ⟨pb, hpbmem, hpbid, hpbst⟩ := inv.curBidding pid hcur
  have hplayer_mem : player ∈ s.players := findPlayer_mem hp
  have hpid : player.id = pid := findPlayer_id hp
  have heq : player = pb :=
    eq_of_id_eq inv.playersNodup hplayer_mem hpbmem (hpid.trans hpbid.symm)
  have hpbidding : player.status = PlayerStatus.bidding := heq ▸ hpbst
  obtain ⟨hsold, c, hcb2, hcge⟩ := inv.biddingSeeded player hplayer_mem hpbidding
  have hc : c = cur := by
    rw [hpcb] at hcb2
    simpa using hcb2.symm
  subst hc
  have hpartid : part.id = qid := findParticipant_id hq
  have haff : totalSpending s qid + a ≤ s.budget_per_team :=
    hpartid ▸ canAffordBid_spec hrole hca
  have hcnt : playerCount s qid < s.max_players_per_team :=
    hpartid ▸ canBidForPlayers_spec hrole hcb
  set nb : Bid :=
    { player_id := pid, participant_id := qid, amount := a, ts := s.bids.length }
    with hnb
  set s1 : AuctionState := { s with bids := s.bids ++ [nb] } with hs1
  set gBid : Player → Player := fun p => { p with current_bid := some a }
    with hgbid
  have hs1p : s1.players = s.players := rfl
  have hmemchar : ∀ x ∈ (updatePlayer s1 pid gBid).players,
      x = gBid player ∨ (x ∈ s.players ∧ x.id ≠ pid) := by
    intro x hx
    obtain ⟨y, hy, rfl⟩ := mem_updatePlayer.mp hx
    by_cases hid : y.id = pid
    · left
      rw [if_pos hid, eq_of_id_eq inv.playersNodup hy hplayer_mem (hid.trans hpid.symm)]
    · right
      rw [if_neg hid]
      exact ⟨hy, hid⟩
  have hgmem : gBid player ∈ (updatePlayer s1 pid gBid).players := by
    refine mem_updatePlayer.mpr ⟨player, hplayer_mem, ?_⟩
    rw [if_pos hpid]
  have hbidsEq : ∀ z, bidsOn (updatePlayer s1 pid gBid) z =
      bidsOn s z ++ if pid = z then [nb] else [] := by
    intro z
    rw [bidsOn_updatePlayer]
    exact bidsOn_bids_append s nb z
  have hspendEq : ∀ z, totalSpending (updatePlayer s1 pid gBid) z = totalSpending s z := by
    intro z
    refine totalSpending_updatePlayer_eq ?_
    intro y hy hid
    have : y = player :=
      eq_of_id_eq inv.playersNodup hy hplayer_mem (hid.trans hpid.symm)
    subst this
    simp [hgbid, hsold]
  have hcntEq : ∀ z, playerCount (updatePlayer s1 pid gBid) z = playerCount s z := by
    intro z
    exact playerCount_updatePlayer_eq (fun y _ _ => rfl)
  have hpkNew : pickHighest (bidsOn s pid ++ [nb]) = some nb := by
    refine pickHighest_append_gt ?_
    intro b hb
    cases hpo : pickHighest (bidsOn s pid) with
    | none =>
      rw [pickHighest_eq_none hpo] at hb
      exact absurd hb (by simp)
    | some hbo =>
      have := inv.maxCur player hplayer_mem hpbidding hbo (hpid ▸ hpo)
      rw [hpcb] at this
      have hamt : hbo.amount = c := by simpa using this.symm
      show b.amount < nb.amount
      rw [hnb]
      calc b.amount ≤ hbo.amount := pickHighest_ub hpo b hb
        _ = c := hamt
        _ < a := hlt
  refine ⟨?_, inv.budgetMin, ?_, ?_, ?_, ?_, ?_, ?_, ?_, ?_, ?_, ?_, ?_, ?_⟩
  · rw [updatePlayer_map_id s1 pid gBid (fun p => rfl)]
    exact inv.playersNodup
  · intro pid' hpid'
    exact hst
  · intro pid' hpid'
    simp only [updatePlayer_current] at hpid'
    have hpe : pid' = pid := by
      have h2 : s.currentPlayerId = some pid' := hpid'
      rw [hcur] at h2
      simpa using h2.symm
    subst hpe
    exact ⟨gBid player, hgmem, hpid, hpbidding⟩
  · intro x hx hxbid
    rcases hmemchar x hx with rfl | ⟨hmem, _⟩
    · show s.currentPlayerId = some (gBid player).id
      rw [show (gBid player).id = pid from hpid]
      exact hcur
    · exact inv.biddingCur x hmem hxbid
  · intro x hx hxbid
    rcases hmemchar x hx with rfl | ⟨hmem, _⟩
    · exact ⟨hsold, a, rfl, le_trans hcge (le_of_lt hlt)⟩
    · exact inv.biddingSeeded x hmem hxbid
  · intro x hx hxbid hxe
    rcases hmemchar x hx with rfl | ⟨hmem, hne⟩
    · rw [hbidsEq, show (gBid player).id = pid from hpid, if_pos rfl] at hxe
      exact absurd hxe (by simp)
    · rw [hbidsEq, if_neg (fun he => hne he.symm), List.append_nil] at hxe
      exact inv.biddingFresh x hmem hxbid hxe
  · intro x hx hxav
    rcases hmemchar x hx with rfl | ⟨hmem, hne⟩
    · exact absurd hxav (by simp [hgbid, hpbidding])
    · obtain ⟨e1, e2, e3⟩ := inv.availClean x hmem hxav
      refine ⟨e1, e2, ?_⟩
      rw [hbidsEq, if_neg (fun he => hne he.symm), List.append_nil]
      exact e3
  · intro x hx hxbid hb hpk
    rcases hmemchar x hx with rfl | ⟨hmem, hne⟩
    · rw [hbidsEq, show (gBid player).id = pid from hpid, if_pos rfl, hpkNew,
        Option.some.injEq] at hpk
      subst hpk
      rfl
    · rw [hbidsEq, if_neg (fun he => hne he.symm), List.append_nil] at hpk
      exact inv.maxCur x hmem hxbid hb hpk
  · intro z
    rw [hspendEq]
    exact inv.spendCap z
  · intro z
    rw [hcntEq]
    exact inv.countCap z
  · intro x hx hxbid hb hpk
    rcases hmemchar x hx with rfl | ⟨hmem, hne⟩
    · rw [hbidsEq, show (gBid player).id = pid from hpid, if_pos rfl, hpkNew,
        Option.some.injEq] at hpk
      subst hpk
      constructor
      · rw [hspendEq]
        exact haff
      · rw [hcntEq]
        exact hcnt
    · rw [hbidsEq, if_neg (fun he => hne he.symm), List.append_nil] at hpk
      obtain ⟨w1, w2⟩ := inv.winnerFunds x hmem hxbid hb hpk
      exact ⟨by rw [hspendEq]; exact w1, by rw [hcntEq]; exact w2⟩
  · show (s.bids ++ [nb]).Pairwise (fun b₁ b₂ => b₁.ts < b₂.ts)
    rw [List.pairwise_append]
    refine ⟨inv.tsPW, List.pairwise_singleton _ _, ?_⟩
    intro x hx y hy
    rw [List.mem_singleton] at hy
    subst hy
    exact inv.tsLt x hx
  · intro b hb
    show b.ts < (s.bids ++ [nb]).length
    rw [List.length_append, List.length_singleton]
    rcases List.mem_append.mp hb with hb | hb
    · exact Nat.lt_succ_of_lt (inv.tsLt b hb)
    · rw [List.mem_singleton] at hb
      subst hb
      exact Nat.lt_succ_self _

theorem bidContrib_some {p : Player} {c : ℚ} (h : p.current_bid = some c) :
    bidContrib p = c := by
  rw [bidContrib, h]
  by_cases hc : c = 0
  · simp [hc]
  · simp [hc]

/-- After the current player has been resolved (no row is in `bidding`
status), advancing to the next available player — or completing the
auction — restores the invariant. -/
theorem Inv_afterClose {s1 s' : AuctionState}
    (hnext : (∃ np, s1.players.find? (fun p => p.status = PlayerStatus.available) = some np ∧
        s' = updatePlayer { s1 with currentPlayerId := some np.id } np.id
          (fun p => { p with status := PlayerStatus.bidding,
                             current_bid := some p.starting_bid })) ∨
      (s1.players.find? (fun p => p.status = PlayerStatus.available) = none ∧
        s' = { s1 with status := AuctionStatus.completed,
                       currentPlayerId := none }))
    (hnd : (s1.players.map Player.id).Nodup)
    (hnb : ∀ x ∈ s1.players, x.status ≠ PlayerStatus.bidding)
    (hac : ∀ x ∈ s1.players, x.status = PlayerStatus.available →
      x.current_bid = none ∧ x.sold_to = none ∧ bidsOn s1 x.id = [])
    (hbud : 50000 ≤ s1.budget_per_team)
    (hsc : ∀ z, totalSpending s1 z ≤ s1.budget_per_team)
    (hcc : ∀ z, playerCount s1 z ≤ s1.max_players_per_team)
    (hst1 : s1.status = AuctionStatus.active)
    (htsPW : s1.bids.Pairwise (fun b₁ b₂ => b₁.ts < b₂.ts))
    (htsLt : ∀ b ∈ s1.bids, b.ts < s1.bids.length) :
    Inv s' := by
  rcases hnext with ⟨np, hnp, rfl⟩ | ⟨hnone, rfl⟩
  · have hnpav : np.status = PlayerStatus.available := by
      simpa using List.find?_some hnp
    have hnpmem : np ∈ s1.players := List.mem_of_find?_eq_some hnp
    obtain ⟨hncb, hnso, hnbids⟩ := hac np hnpmem hnpav
    set s2 : AuctionState := { s1 with currentPlayerId := some np.id } with hs2
    set gSeed : Player → Player := fun p =>
      { p with status := PlayerStatus.bidding,
               current_bid := some p.starting_bid } with hgseed
    have hmemchar : ∀ x ∈ (updatePlayer s2 np.id gSeed).players,
        x = gSeed np ∨ (x ∈ s1.players ∧ x.id ≠ np.id) := by
      intro x hx
      obtain ⟨y, hy, rfl⟩ := mem_updatePlayer.mp hx
      by_cases hid : y.id = np.id
      · left
        rw [if_pos hid, eq_of_id_eq hnd hy hnpmem hid]
      · right
        rw [if_neg hid]
        exact ⟨hy, hid⟩
    have hgmem : gSeed np ∈ (updatePlayer s2 np.id gSeed).players := by
      refine mem_updatePlayer.mpr ⟨np, hnpmem, ?_⟩
      rw [if_pos rfl]
    have hbidsEq : ∀ z, bidsOn (updatePlayer s2 np.id gSeed) z = bidsOn s1 z :=
      fun z => rfl
    refine ⟨?_, hbud, ?_, ?_, ?_, ?_, ?_, ?_, ?_, ?_, ?_, ?_, htsPW, htsLt⟩
    · rw [updatePlayer_map_id s2 np.id gSeed (fun p => rfl)]
      exact hnd
    · intro pid' hpid'
      exact hst1
    · intro pid' hpid'
      simp only [updatePlayer_current] at hpid'
      have hpe : np.id = pid' := by
        have h2 : s2.currentPlayerId = some pid' := hpid'
        rw [hs2] at h2
        simpa using h2
      subst hpe
      exact ⟨gSeed np, hgmem, rfl, rfl⟩
    · intro x hx hxbid
      rcases hmemchar x hx with rfl | ⟨hmem, _⟩
      · rfl
      · exact absurd hxbid (hnb x hmem)
    · intro x hx hxbid
      rcases hmemchar x hx with rfl | ⟨hmem, _⟩
      · exact ⟨hnso, np.starting_bid, rfl, le_refl _⟩
      · exact absurd hxbid (hnb x hmem)
    · intro x hx hxbid hxe
      rcases hmemchar x hx with rfl | ⟨hmem, _⟩
      · rfl
      · exact absurd hxbid (hnb x hmem)
    · intro x hx hxav
      rcases hmemchar x hx with rfl | ⟨hmem, _⟩
      · exact absurd hxav (by simp [hgseed])
      · obtain ⟨e1, e2, e3⟩ := hac x hmem hxav
        exact ⟨e1, e2, by rw [hbidsEq]; exact e3⟩
    · intro x hx hxbid hb hpk
      rcases hmemchar x hx with rfl | ⟨hmem, _⟩
      · rw [hbidsEq] at hpk
        have he : bidsOn s1 (gSeed np).id = [] := hnbids
        rw [he] at hpk
        exact absurd hpk (by simp [pickHighest])
      · exact absurd hxbid (hnb x hmem)
    · intro z
      have heq : totalSpending (updatePlayer s2 np.id gSeed) z = totalSpending s2 z := by
        refine totalSpending_updatePlayer_eq ?_
        intro y hy hid
        have : y = np := eq_of_id_eq hnd hy hnpmem hid
        subst this
        simp [hgseed, hnso]
      rw [heq]
      exact hsc z
    · intro z
      have heq : playerCount (updatePlayer s2 np.id gSeed) z = playerCount s2 z :=
        playerCount_updatePlayer_eq (fun y _ _ => rfl)
      rw [heq]
      exact hcc z
    · intro x hx hxbid hb hpk
      rcases hmemchar x hx with rfl | ⟨hmem, _⟩
      · rw [hbidsEq] at hpk
        have he : bidsOn s1 (gSeed np).id = [] := hnbids
        rw [he] at hpk
        exact absurd hpk (by simp [pickHighest])
      · exact absurd hxbid (hnb x hmem)
  · refine ⟨hnd, hbud, ?_, ?_, ?_, ?_, ?_, ?_, ?_, hsc, hcc, ?_, htsPW, htsLt⟩
    · intro pid' hpid'
      exact absurd hpid' (by simp)
    · intro pid' hpid'
      exact absurd hpid' (by simp)
    · intro x hx hxbid
      exact absurd hxbid (hnb x hx)
    · intro x hx hxbid
      exact absurd hxbid (hnb x hx)
    · intro x hx hxbid
      exact absurd hxbid (hnb x hx)
    · intro x hx hxav
      rw [List.find?_eq_none] at hnone
      exact absurd (by simpa using hxav) (hnone x hx)
    · intro x hx hxbid
      exact absurd hxbid (hnb x hx)
    · intro x hx hxbid
      exact absurd hxbid (hnb x hx)

theorem Inv_close {s s' : AuctionState} (inv : Inv s) {qid pid : String}
    (h : endPlayerBidding s qid pid = .ok s') : Inv s' := by
  obtain ⟨part, hq, hrole, ⟨player, hp⟩, hst, hcur, s1, hs1, hnext⟩ :=
    endPlayerBidding_ok_inv h
  obtain ⟨pb, hpbmem, hpbid, hpbst⟩ := inv.curBidding pid hcur
  have hpmem : player ∈ s.players := findPlayer_mem hp
  have hpid : player.id = pid := findPlayer_id hp
  have hpe : player = pb :=
    eq_of_id_eq inv.playersNodup hpmem hpbmem (hpid.trans hpbid.symm)
  have hbidding : player.status = PlayerStatus.bidding := hpe ▸ hpbst
  obtain ⟨hsold, c, hcb, hcge⟩ := inv.biddingSeeded player hpmem hbidding
  obtain ⟨_, l₁, l₂, hl, h₁, h₂⟩ := findPlayer_decomp hp inv.playersNodup
  rcases hs1 with ⟨hb, hpk, rfl⟩ | ⟨hpk, rfl⟩
  · -- the player is sold to the highest bidder
    set g : Player → Player := fun p =>
      { p with sold_to := some hb.participant_id, status := PlayerStatus.sold }
      with hg
    have hdec1 : (updatePlayer s pid g).players = l₁ ++ g player :: l₂ :=
      updatePlayer_players_decomp hl hpid h₁ h₂ g
    have hmemchar : ∀ x ∈ (updatePlayer s pid g).players,
        x = g player ∨ (x ∈ s.players ∧ x.id ≠ pid) := by
      intro x hx
      obtain ⟨y, hy, rfl⟩ := mem_updatePlayer.mp hx
      by_cases hid : y.id = pid
      · left
        rw [if_pos hid,
          eq_of_id_eq inv.playersNodup hy hpmem (hid.trans hpid.symm)]
      · right
        rw [if_neg hid]
        exact ⟨hy, hid⟩
    have hwf := inv.winnerFunds player hpmem hbidding hb (by rw [hpid]; exact hpk)
    have hmc := inv.maxCur player hpmem hbidding hb (by rw [hpid]; exact hpk)
    have hceq : c = hb.amount := by
      rw [hcb] at hmc
      simpa using hmc
    have hspend : ∀ z, totalSpending (updatePlayer s pid g) z =
        totalSpending s z +
          (if hb.participant_id = z then bidContrib (g player) else 0) := by
      intro z
      rw [totalSpending_of_decomp z hdec1, totalSpending_of_decomp z hl]
      have hgz : ((if (g player).sold_to = some z then bidContrib (g player) else 0) : ℚ)
          = if hb.participant_id = z then bidContrib (g player) else 0 := by
        by_cases hzw : hb.participant_id = z
        · rw [if_pos hzw, if_pos]
          show some hb.participant_id = some z
          rw [hzw]
        · rw [if_neg hzw, if_neg]
          intro hcon
          exact hzw (by simpa using hcon)
      have hps : ((if player.sold_to = some z then bidContrib player else 0) : ℚ) = 0 := by
        rw [hsold]
        simp
      rw [hgz, hps]
      ring
    have hcount : ∀ z, playerCount (updatePlayer s pid g) z =
        playerCount s z + (if hb.participant_id = z then 1 else 0) := by
      intro z
      rw [playerCount_of_decomp z hdec1, playerCount_of_decomp z hl]
      have hgz : ((if (g player).sold_to = some z then 1 else 0) : ℕ)
          = if hb.participant_id = z then 1 else 0 := by
        by_cases hzw : hb.participant_id = z
        · rw [if_pos hzw, if_pos]
          show some hb.participant_id = some z
          rw [hzw]
        · rw [if_neg hzw, if_neg]
          intro hcon
          exact hzw (by simpa using hcon)
      have hps : ((if player.sold_to = some z then 1 else 0) : ℕ) = 0 := by
        rw [hsold]
        simp
      rw [hgz, hps]
      omega
    refine Inv_afterClose hnext ?_ ?_ ?_ inv.budgetMin ?_ ?_ hst inv.tsPW inv.tsLt
    · rw [updatePlayer_map_id s pid g (fun p => rfl)]
      exact inv.playersNodup
    · intro x hx hxbid
      rcases hmemchar x hx with rfl | ⟨hmem, hne⟩
      · exact absurd hxbid (by simp [hg])
      · exact hne (by
          have := inv.biddingCur x hmem hxbid
          rw [hcur] at this
          simpa using this.symm)
    · intro x hx hxav
      rcases hmemchar x hx with rfl | ⟨hmem, _⟩
      · exact absurd hxav (by simp [hg])
      · exact inv.availClean x hmem hxav
    · intro z
      rw [hspend z]
      by_cases hzw : hb.participant_id = z
      · rw [if_pos hzw, bidContrib_some (show (g player).current_bid = some c from hcb)]
        subst hzw
        rw [hceq]
        exact hwf.1
      · rw [if_neg hzw, add_zero]
        exact inv.spendCap z
    · intro z
      rw [hcount z]
      by_cases hzw : hb.participant_id = z
      · rw [if_pos hzw]
        subst hzw
        have h2 := hwf.2
        show playerCount s hb.participant_id + 1 ≤ s.max_players_per_team
        omega
      · rw [if_neg hzw, Nat.add_zero]
        exact inv.countCap z
  · -- no bids: the player goes unsold
    set g : Player → Player := fun p => { p with status := PlayerStatus.unsold }
      with hg
    have hmemchar : ∀ x ∈ (updatePlayer s pid g).players,
        x = g player ∨ (x ∈ s.players ∧ x.id ≠ pid) := by
      intro x hx
      obtain ⟨y, hy, rfl⟩ := mem_updatePlayer.mp hx
      by_cases hid : y.id = pid
      · left
        rw [if_pos hid,
          eq_of_id_eq inv.playersNodup hy hpmem (hid.trans hpid.symm)]
      · right
        rw [if_neg hid]
        exact ⟨hy, hid⟩
    have hspend : ∀ z, totalSpending (updatePlayer s pid g) z = totalSpending s z :=
      fun z => totalSpending_updatePlayer_eq (fun y _ _ => rfl)
    have hcount : ∀ z, playerCount (updatePlayer s pid g) z = playerCount s z :=
      fun z => playerCount_updatePlayer_eq (fun y _ _ => rfl)
    refine Inv_afterClose hnext ?_ ?_ ?_ inv.budgetMin ?_ ?_ hst inv.tsPW inv.tsLt
    · rw [updatePlayer_map_id s pid g (fun p => rfl)]
      exact inv.playersNodup
    · intro x hx hxbid
      rcases hmemchar x hx with rfl | ⟨hmem, hne⟩
      · exact absurd hxbid (by simp [hg])
      · exact hne (by
          have := inv.biddingCur x hmem hxbid
          rw [hcur] at this
          simpa using this.symm)
    · intro x hx hxav
      rcases hmemchar x hx with rfl | ⟨hmem, _⟩
      · exact absurd hxav (by simp [hg])
      · exact inv.availClean x hmem hxav
    · intro z
      rw [hspend z]
      exact inv.spendCap z
    · intro z
      rw [hcount z]
      exact inv.countCap z

/-- Every reachable state satisfies the invariant. -/
theorem Inv_of_Reachable {s : AuctionState} (h : Reachable s) : Inv s := by
  induction h with
  | init s hs => exact Inv_of_Init hs
  | step s s' _ hstep ih =>
    cases hstep with
    | join q hrole hfresh => exact Inv_join ih q
    | start s2 aid hok => exact Inv_start ih hok
    | expire hcd => exact Inv_expire ih hcd
    | bid s2 qid pid amount hok => exact Inv_bid ih hok
    | close s2 qid pid hok => exact Inv_close ih hok

/-! ## Concrete runs of the handlers (shared fixtures for the claims) -/

theorem init_scn0 : Init scn0 := by
  refine ⟨rfl, rfl, rfl, ?_, ?_, ?_, ?_, ?_, ?_⟩ <;> first | decide | norm_num

theorem scn_start : startAuction scn0 "adm" = .ok scn0c := rfl

theorem scn_expire : countdownExpire scn0c = scn1 := rfl

theorem scn_bid1 : placeBid scn1 "X" "A" 550000 = .ok scn2 := by
  simp [placeBid, findParticipant, findPlayer, canAffordBid, canBidForPlayers,
    remainingBudget, totalSpending, playerCount, updatePlayer,
    scn2, scn1, scn0, pAbid, pA, pB, admP, bidderX, bidderY, bidX550,
    List.filter_cons, List.filter_nil, List.foldl_cons, List.foldl_nil,
    decide_eq_true_eq] <;> norm_num

theorem scn_bid2 : placeBid scn2 "Y" "A" 600000 = .ok scn3 := by
  simp [placeBid, findParticipant, findPlayer, canAffordBid, canBidForPlayers,
    remainingBudget, totalSpending, playerCount, updatePlayer,
    scn3, scn2, scn1, scn0, pAbid, pA, pB, admP, bidderX, bidderY, bidX550,
    bidY600, List.filter_cons, List.filter_nil, List.foldl_cons,
    List.foldl_nil, decide_eq_true_eq] <;> norm_num

theorem scn_close1 : endPlayerBidding scn3 "adm" "A" = .ok scn4 := by decide

theorem scn_close2 : endPlayerBidding scn4 "adm" "B" = .ok scn5 := by decide

theorem reach_scn0 : Reachable scn0 := Reachable.init scn0 init_scn0

theorem reach_scn0c : Reachable scn0c :=
  Reachable.step scn0 scn0c reach_scn0 (Step.start scn0 scn0c "adm" scn_start)

theorem reach_scn1 : Reachable scn1 :=
  Reachable.step scn0c scn1 reach_scn0c (scn_expire ▸ Step.expire scn0c rfl)

theorem reach_scn2 : Reachable scn2 :=
  Reachable.step scn1 scn2 reach_scn1 (Step.bid scn1 scn2 "X" "A" 550000 scn_bid1)

theorem reach_scn3 : Reachable scn3 :=
  Reachable.step scn2 scn3 reach_scn2 (Step.bid scn2 scn3 "Y" "A" 600000 scn_bid2)

theorem reach_scn4 : Reachable scn4 :=
  Reachable.step scn3 scn4 reach_scn3 (Step.close scn3 scn4 "adm" "A" scn_close1)

theorem reach_scn5 : Reachable scn5 :=
  Reachable.step scn4 scn5 reach_scn4 (Step.close scn4 scn5 "adm" "B" scn_close2)

theorem init_cex0 : Init cex0 := by
  refine ⟨rfl, rfl, rfl, ?_, ?_, ?_, ?_, ?_, ?_⟩ <;> first | decide | norm_num

theorem cex_start : startAuction cex0 "adm" = .ok cex0c := rfl

theorem cex_expire : countdownExpire cex0c = cex1 := rfl

theorem reach_cex1 : Reachable cex1 :=
  Reachable.step cex0c cex1
    (Reachable.step cex0 cex0c (Reachable.init cex0 init_cex0)
      (Step.start cex0 cex0c "adm" cex_start))
    (cex_expire ▸ Step.expire cex0c rfl)

theorem init_zps0 : Init zps0 := by
  refine ⟨rfl, rfl, rfl, ?_, ?_, ?_, ?_, ?_, ?_⟩ <;> first | decide | norm_num

theorem zps_start : startAuction zps0 "adm" = .ok zps0c := rfl

theorem zps_expire : countdownExpire zps0c = zps := rfl

theorem reach_zps : Reachable zps :=
  Reachable.step zps0c zps
    (Reachable.step zps0 zps0c (Reachable.init zps0 init_zps0)
      (Step.start zps0 zps0c "adm" zps_start))
    (zps_expire ▸ Step.expire zps0c rfl)

/-! ## Shared handler-evaluation lemmas -/

/-- In `handle_place_bid`, once the role, auction-status and current-player
checks pass, the remaining checks run in source order: budget, then roster,
then the bid-amount comparison. -/
theorem placeBid_order_spec {s : AuctionState} {qid pid : String}
    {part : Participant} {player : Player} (a : ℚ)
    (hq : findParticipant s qid = some part) (hrole : part.role = Role.bidder)
    (hp : findPlayer s pid = some player) (hst : s.status = AuctionStatus.active)
    (hcur : s.currentPlayerId = some pid) :
    (canAffordBid s part a = false →
      placeBid s qid pid a = .error Err.insufficientBudget) ∧
    (canAffordBid s part a = true → canBidForPlayers s part = false →
      placeBid s qid pid a = .error Err.rosterFull) ∧
    (∀ cur, canAffordBid s part a = true → canBidForPlayers s part = true →
      player.current_bid = some cur → a ≤ cur →
      placeBid s qid pid a = .error Err.bidTooLow) := by
  refine ⟨?_, ?_, ?_⟩
  · intro hca
    rw [placeBid, hq]
    dsimp only
    rw [if_neg (fun hne => hne hrole), hp]
    dsimp only
    rw [if_neg (fun hne => hne hst), if_neg (fun hne => hne hcur),
      if_pos (by simp [hca])]
  · intro hca hcb
    rw [placeBid, hq]
    dsimp only
    rw [if_neg (fun hne => hne hrole), hp]
    dsimp only
    rw [if_neg (fun hne => hne hst), if_neg (fun hne => hne hcur),
      if_neg (by simp [hca]), if_pos (by simp [hcb])]
  · intro cur hca hcb hcb2 hle
    rw [placeBid, hq]
    dsimp only
    rw [if_neg (fun hne => hne hrole), hp]
    dsimp only
    rw [if_neg (fun hne => hne hst), if_neg (fun hne => hne hcur),
      if_neg (by simp [hca]), if_neg (by simp [hcb]), hcb2]
    dsimp only
    rw [if_pos hle]

/-- An accepted bid neither changes any player's `sold_to` owner nor the
budget, so every participant's derived spending is unchanged. -/
theorem totalSpending_placeBid {s s' : AuctionState} (inv : Inv s)
    {qid pid : String} {a : ℚ} (h : placeBid s qid pid a = .ok s') :
    (∀ z, totalSpending s' z = totalSpending s z) ∧
    s'.budget_per_team = s.budget_per_team ∧
    s'.participants = s.participants := by
  obtain ⟨part, player, cur, hq, hrole, hp, hst, hcur, hca, hcb, hpcb, hlt, rfl⟩ :=
    placeBid_ok_inv h
  obtain ⟨pb, hpbmem, hpbid, hpbst⟩ := inv.curBidding pid hcur
  have hpmem : player ∈ s.players := findPlayer_mem hp
  have hpid : player.id = pid := findPlayer_id hp
  have hpe : player = pb :=
    eq_of_id_eq inv.playersNodup hpmem hpbmem (hpid.trans hpbid.symm)
  have hbidding : player.status = PlayerStatus.bidding := hpe ▸ hpbst
  have hsold : player.sold_to = none :=
    (inv.biddingSeeded player hpmem hbidding).1
  refine ⟨?_, rfl, rfl⟩
  intro z
  refine totalSpending_updatePlayer_eq ?_
  intro y hy hid
  have : y = player :=
    eq_of_id_eq inv.playersNodup hy hpmem (hid.trans hpid.symm)
  subst this
  simp [hsold]

/-! ## The claims -/

/-- C1 (amended): `handle_place_bid` checks, in order: participant role =
bidder; auction and player rows resolve with auction status active; player
is the auction's current player; remaining budget ≥ amount; owned-player
count < `max_players_per_team`; and only then amount strictly greater than
`player.current_bid`.  The budget check runs before the bid-amount check, so
a bid that is both not strictly greater than `current_bid` and unaffordable
is rejected as insufficient-budget, not as bid-too-low. -/
theorem C1_budget_checked_before_amount {s : AuctionState} {qid pid : String}
    {part : Participant} {player : Player} (a : ℚ)
    (hq : findParticipant s qid = some part) (hrole : part.role = Role.bidder)
    (hp : findPlayer s pid = some player) (hst : s.status = AuctionStatus.active)
    (hcur : s.currentPlayerId = some pid) :
    (canAffordBid s part a = false →
      placeBid s qid pid a = .error Err.insufficientBudget) ∧
    (canAffordBid s part a = true → canBidForPlayers s part = false →
      placeBid s qid pid a = .error Err.rosterFull) ∧
    (∀ cur, canAffordBid s part a = true → canBidForPlayers s part = true →
      player.current_bid = some cur → a ≤ cur →
      placeBid s qid pid a = .error Err.bidTooLow) :=
  placeBid_order_spec a hq hrole hp hst hcur

/-- Witness for C1: in the reachable tight-budget state `cex1` the $55k bid
is unaffordable, and the handler reports insufficient-budget. -/
theorem C1_budget_checked_before_amount_witness :
    placeBid cex1 "X" "C" 55000 = .error Err.insufficientBudget :=
  (@C1_budget_checked_before_amount cex1 "X" "C" bidderX pCbid 55000
      (by decide) rfl (by decide) rfl rfl).1
    (by simp [canAffordBid, remainingBudget, totalSpending, cex1, cex0, pCbid,
      pC, bidderX, List.filter_cons, List.filter_nil, List.foldl_cons,
      List.foldl_nil, decide_eq_false_iff_not] <;> norm_num)

/-- Counterexample for C1 as stated: in the reachable state `cex1`
(budget $50,000, current bid $60,000) the bid of $55,000 is both too low
(55000 ≤ 60000) and unaffordable, and the emitted error is
insufficient-budget, not bid-too-low. -/
theorem C1_cex_low_and_unaffordable :
    placeBid cex1 "X" "C" 55000 = .error Err.insufficientBudget ∧
    Err.insufficientBudget ≠ Err.bidTooLow ∧
    findPlayer cex1 "C" = some pCbid ∧ pCbid.current_bid = some 60000 ∧
    ((55000 : ℚ) ≤ 60000) ∧ Reachable cex1 := by
  refine ⟨?_, by decide, by decide, rfl, by norm_num, reach_cex1⟩
  simp [placeBid, findParticipant, findPlayer, canAffordBid, canBidForPlayers,
    remainingBudget, totalSpending, playerCount, cex1, cex0, pCbid, pC, admP,
    bidderX, List.filter_cons, List.filter_nil, List.foldl_cons,
    List.foldl_nil, decide_eq_true_eq] <;> norm_num

/-- C6 (amended): a successful close of the current player when every other
player is already resolved completes the auction and clears
`current_player`; but an auction with zero players can never be closed at
all — `handle_end_player_bidding` rejects every request because no player
row resolves — so an active auction with `current_player = null` and no
players is stuck, not "immediately resolvable to completed". -/
theorem C6_last_close_completes (s : AuctionState) :
    (∀ aid pid s', endPlayerBidding s aid pid = .ok s' →
      (∀ p ∈ s.players, p.id ≠ pid → p.status ≠ PlayerStatus.available) →
      s'.status = AuctionStatus.completed ∧ s'.currentPlayerId = none) ∧
    (s.players = [] → ∀ aid pid s', ¬ (endPlayerBidding s aid pid = .ok s')) := by
  constructor
  · intro aid pid s' hok hlast
    obtain ⟨part, hq, hrole, ⟨player, hp⟩, hst, hcur, s1, hs1, hnext⟩ :=
      endPlayerBidding_ok_inv hok
    have hform : ∃ g : Player → Player, s1 = updatePlayer s pid g ∧
        ∀ y, (g y).status ≠ PlayerStatus.available := by
      rcases hs1 with ⟨hb, _, rfl⟩ | ⟨_, rfl⟩
      · exact ⟨_, rfl, fun y => by simp⟩
      · exact ⟨_, rfl, fun y => by simp⟩
    obtain ⟨g, rfl, hg⟩ := hform
    have hnoav : (updatePlayer s pid g).players.find?
        (fun p => p.status = PlayerStatus.available) = none := by
      rw [List.find?_eq_none]
      intro x hx
      obtain ⟨y, hy, rfl⟩ := mem_updatePlayer.mp hx
      by_cases hid : y.id = pid
      · rw [if_pos hid]
        simpa using hg y
      · rw [if_neg hid]
        simpa using hlast y hy hid
    rcases hnext with ⟨np, hnp, rfl⟩ | ⟨_, rfl⟩
    · rw [hnoav] at hnp
      exact absurd hnp (by simp)
    · exact ⟨rfl, rfl⟩
  · intro hempty aid pid s' hok
    obtain ⟨_, _, _, ⟨player, hp⟩, _⟩ := endPlayerBidding_ok_inv hok
    rw [findPlayer, hempty] at hp
    exact absurd hp (by simp)

/-- Witness for C6: closing B (the last unresolved player of the §8 run)
completes the auction, and no close request succeeds on the zero-player
active auction. -/
theorem C6_last_close_completes_witness :
    (scn5.status = AuctionStatus.completed ∧ scn5.currentPlayerId = none) ∧
    ¬ (endPlayerBidding zps "adm" "p1" = .ok zps) :=
  ⟨(C6_last_close_completes scn4).1 "adm" "B" scn5 scn_close2 (by decide),
   (C6_last_close_completes zps).2 rfl "adm" "p1" zps⟩

/-- Counterexample for C6 as stated: the zero-player auction `zps` is
reachable (created with an empty catalog, started, countdown expired), is
active with `current_player = null` — and no `end_player_bidding` request
on it ever succeeds, so it is not resolvable to completed. -/
theorem C6_cex_zero_players_stuck :
    Reachable zps ∧ zps.status = AuctionStatus.active ∧
    zps.currentPlayerId = none ∧ zps.players = [] ∧
    ¬ ∃ aid pid s', endPlayerBidding zps aid pid = .ok s' := by
  refine ⟨reach_zps, rfl, rfl, rfl, ?_⟩
  rintro ⟨aid, pid, s', hok⟩
  obtain ⟨_, _, _, ⟨player, hp⟩, _⟩ := endPlayerBidding_ok_inv hok
  rw [findPlayer] at hp
  exact absurd hp (by simp [zps, zps0])

/-- C7 (amended): an accepted bid on the (still unresolved) current player
does not change any participant's derived remaining budget — in the §8
scenario, X's remaining budget right after the accepted $550k bid on A is
still $2,000,000; it only drops when a player is sold to X. -/
theorem C7_remaining_budget_unchanged_by_bid {s s' : AuctionState}
    (hr : Reachable s) {qid pid : String} {a : ℚ}
    (h : placeBid s qid pid a = .ok s') :
    ∀ q, remainingBudget s' q = remainingBudget s q := by
  have inv := Inv_of_Reachable hr
  obtain ⟨hsp, hbud, _⟩ := totalSpending_placeBid inv h
  intro q
  rw [remainingBudget, remainingBudget, hbud, hsp]

/-- Witness for C7: instantiated on the §8 scenario itself. -/
theorem C7_remaining_budget_unchanged_by_bid_witness :
    remainingBudget scn2 bidderX = remainingBudget scn1 bidderX :=
  C7_remaining_budget_unchanged_by_bid reach_scn1 scn_bid1 bidderX

/-- Counterexample for C7 as stated: in the §8 scenario, X's accepted $550k
bid on A leaves A unresolved and X's derived remaining budget at
$2,000,000, not $1,450,000. -/
theorem C7_cex_remaining_is_two_million :
    placeBid scn1 "X" "A" 550000 = .ok scn2 ∧
    bidderX ∈ scn2.participants ∧
    findPlayer scn2 "A" = some { pAbid with current_bid := some 550000 } ∧
    ({ pAbid with current_bid := some 550000 } : Player).status =
      PlayerStatus.bidding ∧
    remainingBudget scn2 bidderX = 2000000 ∧
    ((2000000 : ℚ) ≠ 1450000) ∧ Reachable scn1 := by
  refine ⟨scn_bid1, by decide, by decide, rfl, ?_, by norm_num, reach_scn1⟩
  simp [remainingBudget, totalSpending, scn2, scn1, scn0, pAbid, pA, pB,
    bidderX, List.filter_cons, List.filter_nil, List.foldl_cons,
    List.foldl_nil] <;> norm_num

/-- C8 (amended): `generate_short_code` draws each code independently from
the entropy stream with no collision check: the codes of a new auction are
a function of the stream alone — identical whatever codes already exist —
and the new row is registered unconditionally, so neither cross-auction
uniqueness nor pairwise distinctness of one auction's three codes is
enforced. -/
theorem C8_codes_not_collision_checked :
    ∀ (existing existing' : List AuctionCodes)
      (pick : Nat → Fin codeAlphabet.length),
      (createAuctionCodes existing pick).1 = (createAuctionCodes existing' pick).1 ∧
      (createAuctionCodes existing pick).2 =
        existing ++ [(createAuctionCodes existing pick).1] :=
  fun _ _ _ => ⟨rfl, rfl⟩

/-- Counterexample for C8 as stated: under the constant entropy stream the
three codes of the new auction are all "AAAAAAAA", equal to an existing
auction's admin code, and creation still succeeds and registers the row. -/
theorem C8_cex_identical_codes :
    (newAuctionCodes pickZero).admin_code = "AAAAAAAA" ∧
    (newAuctionCodes pickZero).bidder_code = (newAuctionCodes pickZero).admin_code ∧
    (newAuctionCodes pickZero).visitor_code = (newAuctionCodes pickZero).admin_code ∧
    (newAuctionCodes pickZero).admin_code = existingA.admin_code ∧
    (createAuctionCodes [existingA] pickZero).2 =
      [existingA, newAuctionCodes pickZero] := by
  refine ⟨?_, ?_, ?_, ?_, rfl⟩ <;> decide

/-- C2: after every accepted bid, the maximum-amount bid recorded in the
ledger for the bid's player equals that player's `current_bid` field. -/
theorem C2_ledger_max_eq_current_bid {s s' : AuctionState} (hr : Reachable s)
    {qid pid : String} {a : ℚ} (h : placeBid s qid pid a = .ok s') :
    ∃ p hb, findPlayer s' pid = some p ∧
      pickHighest (bidsOn s' pid) = some hb ∧
      p.current_bid = some hb.amount := by
  have hr' : Reachable s' := Reachable.step s s' hr (Step.bid s s' qid pid a h)
  have inv' := Inv_of_Reachable hr'
  obtain ⟨part, player, cur, hq, hrole, hp, hst, hcur, hca, hcb, hpcb, hlt, hs'⟩ :=
    placeBid_ok_inv h
  have hcur' : s'.currentPlayerId = some pid := by
    rw [hs']
    exact hcur
  obtain ⟨p, hpmem, hpid, hpbid⟩ := inv'.curBidding pid hcur'
  have hfind : findPlayer s' pid = some p := by
    have := findPlayer_eq_of_mem inv'.playersNodup hpmem
    rwa [hpid] at this
  have hne : bidsOn s' pid ≠ [] := by
    rw [hs', bidsOn_updatePlayer, bidsOn_bids_append]
    simp
  obtain ⟨hb, hpk⟩ := pickHighest_isSome hne
  exact ⟨p, hb, hfind, hpk, inv'.maxCur p hpmem hpbid hb (by rwa [hpid])⟩

/-- Witness for C2: X's accepted $550k bid in the §8 scenario. -/
theorem C2_ledger_max_eq_current_bid_witness :
    ∃ p hb, findPlayer scn2 "A" = some p ∧
      pickHighest (bidsOn scn2 "A") = some hb ∧
      p.current_bid = some hb.amount :=
  C2_ledger_max_eq_current_bid reach_scn1 scn_bid1

/-- C3: in every reachable state every bidder's derived remaining budget is
non-negative, and it stays non-negative across any accepted close of the
current player. -/
theorem C3_remaining_budget_nonneg {s : AuctionState} (hr : Reachable s) :
    (∀ q ∈ s.participants, q.role = Role.bidder → 0 ≤ remainingBudget s q) ∧
    (∀ aid pid s', endPlayerBidding s aid pid = .ok s' →
      ∀ q ∈ s'.participants, q.role = Role.bidder →
        0 ≤ remainingBudget s' q) := by
  have key : ∀ t : AuctionState, Reachable t → ∀ q ∈ t.participants,
      q.role = Role.bidder → 0 ≤ remainingBudget t q := by
    intro t ht q _ hrole
    have inv := Inv_of_Reachable ht
    rw [remainingBudget, if_neg (fun hne => hne hrole)]
    have := inv.spendCap q.id
    linarith
  exact ⟨key s hr, fun aid pid s' h =>
    key s' (Reachable.step s s' hr (Step.close s s' aid pid h))⟩

/-- Witness for C3: the §8 scenario right before A is closed and sold. -/
theorem C3_remaining_budget_nonneg_witness :
    (∀ q ∈ scn3.participants, q.role = Role.bidder →
      0 ≤ remainingBudget scn3 q) ∧
    (∀ aid pid s', endPlayerBidding scn3 aid pid = .ok s' →
      ∀ q ∈ s'.participants, q.role = Role.bidder →
        0 ≤ remainingBudget s' q) :=
  C3_remaining_budget_nonneg reach_scn3

/-- C4: in every reachable state no participant owns more than
`max_players_per_team` players via `sold_to`. -/
theorem C4_roster_never_exceeds_cap {s : AuctionState} (hr : Reachable s) :
    ∀ q ∈ s.participants, playerCount s q.id ≤ s.max_players_per_team :=
  fun q _ => (Inv_of_Reachable hr).countCap q.id

/-- Witness for C4: in the §8 scenario after A is sold to Y, Y's roster
count respects the cap. -/
theorem C4_roster_never_exceeds_cap_witness :
    bidderY ∈ scn4.participants ∧
    playerCount scn4 bidderY.id ≤ scn4.max_players_per_team :=
  ⟨by decide, C4_roster_never_exceeds_cap reach_scn4 bidderY (by decide)⟩

/-- C9: whenever a player is the current player its `current_bid` is seeded
(equal to `starting_bid` while no bid exists, and always ≥ `starting_bid`);
every accepted bid is strictly greater than the player's `starting_bid`;
and a bid equal to the `starting_bid` from a bidder who passes the budget
and roster checks is rejected as bid-too-low. -/
theorem C9_seeding_and_strict_increase {s : AuctionState} (hr : Reachable s)
    {pid : String} {p : Player} (hcur : s.currentPlayerId = some pid)
    (hp : findPlayer s pid = some p) :
    (bidsOn s pid = [] → p.current_bid = some p.starting_bid) ∧
    (∃ c, p.current_bid = some c ∧ p.starting_bid ≤ c) ∧
    (∀ qid a s', placeBid s qid pid a = .ok s' → p.starting_bid < a) ∧
    (∀ qid part, findParticipant s qid = some part → part.role = Role.bidder →
      canAffordBid s part p.starting_bid = true →
      canBidForPlayers s part = true →
      placeBid s qid pid p.starting_bid = .error Err.bidTooLow) := by
  have inv := Inv_of_Reachable hr
  obtain ⟨pb, hpbmem, hpbid, hpbst⟩ := inv.curBidding pid hcur
  have hpmem := findPlayer_mem hp
  have hpid := findPlayer_id hp
  have hpe : p = pb :=
    eq_of_id_eq inv.playersNodup hpmem hpbmem (hpid.trans hpbid.symm)
  have hbid : p.status = PlayerStatus.bidding := hpe ▸ hpbst
  obtain ⟨hsold, c, hcb, hcge⟩ := inv.biddingSeeded p hpmem hbid
  refine ⟨?_, ⟨c, hcb, hcge⟩, ?_, ?_⟩
  · intro hempty
    exact inv.biddingFresh p hpmem hbid (by rwa [hpid])
  · intro qid a s' hok
    obtain ⟨part, player, cur, _, _, hp2, _, _, _, _, hpcb2, hlt, _⟩ :=
      placeBid_ok_inv hok
    have hpp : player = p := by
      rw [hp2] at hp
      simpa using hp
    subst hpp
    rw [hcb] at hpcb2
    have hcc : c = cur := by simpa using hpcb2
    calc player.starting_bid ≤ c := hcge
      _ = cur := hcc
      _ < a := hlt
  · intro qid part hq hrole hca hcb2
    exact (placeBid_order_spec p.starting_bid hq hrole hp
      (inv.curActive pid hcur) hcur).2.2 c hca hcb2 hcb hcge

/-- Witness for C9: player A of the §8 scenario right after seeding. -/
theorem C9_seeding_and_strict_increase_witness :
    (bidsOn scn1 "A" = [] → pAbid.current_bid = some pAbid.starting_bid) ∧
    (∃ c, pAbid.current_bid = some c ∧ pAbid.starting_bid ≤ c) ∧
    (∀ qid a s', placeBid scn1 qid "A" a = .ok s' → pAbid.starting_bid < a) ∧
    (∀ qid part, findParticipant scn1 qid = some part →
      part.role = Role.bidder →
      canAffordBid scn1 part pAbid.starting_bid = true →
      canBidForPlayers scn1 part = true →
      placeBid scn1 qid "A" pAbid.starting_bid = .error Err.bidTooLow) :=
  C9_seeding_and_strict_increase reach_scn1 rfl (by decide)

/-- C10: a close request for a player that is not the auction's current
player is rejected with no state change, and a resolved (sold or unsold)
player is never the current player — so no player is ever resolved twice. -/
theorem C10_stale_close_rejected {s : AuctionState} (hr : Reachable s)
    {pid : String} {p : Player} (hp : findPlayer s pid = some p) :
    (s.currentPlayerId ≠ some pid → ∀ aid,
      closeAttempt s aid pid = s ∧
      ∀ s', ¬ endPlayerBidding s aid pid = .ok s') ∧
    ((p.status = PlayerStatus.sold ∨ p.status = PlayerStatus.unsold) →
      s.currentPlayerId ≠ some pid) := by
  have inv := Inv_of_Reachable hr
  constructor
  · intro hne aid
    have herr : ∀ s', ¬ endPlayerBidding s aid pid = .ok s' := by
      intro s' hok
      obtain ⟨_, _, _, _, _, hcur, _⟩ := endPlayerBidding_ok_inv hok
      exact hne hcur
    refine ⟨?_, herr⟩
    cases heb : endPlayerBidding s aid pid with
    | ok s' => exact absurd heb (herr s')
    | error e => simp only [closeAttempt, heb]
  · rintro hres hcur
    obtain ⟨pb, hpbmem, hpbid, hpbst⟩ := inv.curBidding pid hcur
    have hpe : p = pb :=
      eq_of_id_eq inv.playersNodup (findPlayer_mem hp) hpbmem
        ((findPlayer_id hp).trans hpbid.symm)
    rcases hres with h1 | h1 <;> rw [hpe, hpbst] at h1 <;>
      exact absurd h1 (by simp)

/-- Witness for C10: after A is sold in the §8 scenario, a second close
request naming A is rejected and leaves the state unchanged. -/
theorem C10_stale_close_rejected_witness :
    closeAttempt scn4 "adm" "A" = scn4 ∧
    ∀ s', ¬ endPlayerBidding scn4 "adm" "A" = .ok s' :=
  (C10_stale_close_rejected reach_scn4 (by decide : findPlayer scn4 "A" = some pAsold)).1
    (by decide) "adm"

/-- A non-available row of the post-resolution state survives the
advance-or-complete stage unchanged. -/
theorem mem_players_after_next {s1 s' : AuctionState} {x : Player}
    (hnd : (s1.players.map Player.id).Nodup)
    (hx : x ∈ s1.players) (hxs : x.status ≠ PlayerStatus.available)
    (hnext : (∃ np, s1.players.find? (fun p => p.status = PlayerStatus.available) = some np ∧
        s' = updatePlayer { s1 with currentPlayerId := some np.id } np.id
          (fun p => { p with status := PlayerStatus.bidding,
                             current_bid := some p.starting_bid })) ∨
      (s1.players.find? (fun p => p.status = PlayerStatus.available) = none ∧
        s' = { s1 with status := AuctionStatus.completed,
                       currentPlayerId := none })) :
    x ∈ s'.players := by
  rcases hnext with ⟨np, hnp, rfl⟩ | ⟨_, rfl⟩
  · have hnpav : np.status = PlayerStatus.available := by
      simpa using List.find?_some hnp
    have hnpmem : np ∈ s1.players := List.mem_of_find?_eq_some hnp
    have hxne : x.id ≠ np.id := by
      intro hcon
      exact hxs (by rw [eq_of_id_eq hnd hx hnpmem hcon]; exact hnpav)
    exact mem_updatePlayer.mpr ⟨x, hx, by rw [if_neg hxne]⟩
  · exact hx

/-- C5: a successful close of the current player resolves it to unsold with
no owner when the ledger holds no bid for it, and otherwise to sold with
`sold_to` the participant of the maximum-amount bid, the earliest such bid
winning ties (smaller timestamp). -/
theorem C5_close_sold_or_unsold {s s' : AuctionState} (hr : Reachable s)
    {aid pid : String} (h : endPlayerBidding s aid pid = .ok s') :
    ∃ p', findPlayer s' pid = some p' ∧
      (bidsOn s pid = [] →
        p'.status = PlayerStatus.unsold ∧ p'.sold_to = none) ∧
      (bidsOn s pid ≠ [] → ∃ hb, pickHighest (bidsOn s pid) = some hb ∧
        p'.status = PlayerStatus.sold ∧ p'.sold_to = some hb.participant_id ∧
        (∀ b ∈ bidsOn s pid, b.amount ≤ hb.amount) ∧
        (∀ b ∈ bidsOn s pid, b.amount = hb.amount → hb.ts ≤ b.ts)) := by
  have inv := Inv_of_Reachable hr
  have inv' : Inv s' :=
    Inv_of_Reachable (Reachable.step s s' hr (Step.close s s' aid pid h))
  obtain ⟨part, hq, hrole, ⟨player, hp⟩, hst, hcur, s1, hs1, hnext⟩ :=
    endPlayerBidding_ok_inv h
  obtain ⟨pb, hpbmem, hpbid, hpbst⟩ := inv.curBidding pid hcur
  have hpmem : player ∈ s.players := findPlayer_mem hp
  have hpid : player.id = pid := findPlayer_id hp
  have hpe : player = pb :=
    eq_of_id_eq inv.playersNodup hpmem hpbmem (hpid.trans hpbid.symm)
  have hbidding : player.status = PlayerStatus.bidding := hpe ▸ hpbst
  have hsold : player.sold_to = none :=
    (inv.biddingSeeded player hpmem hbidding).1
  rcases hs1 with ⟨hb, hpk, rfl⟩ | ⟨hpk, rfl⟩
  · -- sold branch: the ledger holds at least one bid for the player
    have hne : bidsOn s pid ≠ [] := by
      intro he
      rw [he] at hpk
      exact absurd hpk (by simp [pickHighest])
    set gS : Player → Player := fun p =>
      { p with sold_to := some hb.participant_id,
               status := PlayerStatus.sold } with hgs
    have hnd1 : ((updatePlayer s pid gS).players.map Player.id).Nodup := by
      rw [updatePlayer_map_id s pid gS (fun p => rfl)]
      exact inv.playersNodup
    have hmem1 : gS player ∈ (updatePlayer s pid gS).players :=
      mem_updatePlayer.mpr ⟨player, hpmem, by rw [if_pos hpid]⟩
    have hmem' : gS player ∈ s'.players :=
      mem_players_after_next hnd1 hmem1 (by simp [hgs]) hnext
    have hfind : findPlayer s' pid = some (gS player) := by
      have := findPlayer_eq_of_mem inv'.playersNodup hmem'
      rwa [show (gS player).id = pid from hpid] at this
    refine ⟨gS player, hfind, fun he => absurd he hne, fun _ => ⟨hb, hpk, rfl, rfl,
      pickHighest_ub hpk, ?_⟩⟩
    have hsub : (bidsOn s pid).Sublist s.bids := List.filter_sublist _
    have hpw : (bidsOn s pid).Pairwise (fun b₁ b₂ => b₁.ts < b₂.ts) :=
      List.Pairwise.sublist hsub inv.tsPW
    obtain ⟨m₁, m₂, hm, hltm⟩ := pickHighest_earliest hpk
    rw [hm] at hpw
    intro b hbmem hbeq
    rw [hm] at hbmem
    rcases List.mem_append.mp hbmem with h1 | h1
    · exact absurd hbeq (ne_of_lt (hltm b h1))
    · rcases List.mem_cons.mp h1 with rfl | h1
      · exact le_refl _
      · exact le_of_lt ((List.pairwise_cons.mp
          (List.pairwise_append.mp hpw).2.1).1 b h1)
  · -- unsold branch: no bid for the player exists
    have hempty : bidsOn s pid = [] := pickHighest_eq_none hpk
    set gU : Player → Player := fun p => { p with status := PlayerStatus.unsold }
      with hgu
    have hnd1 : ((updatePlayer s pid gU).players.map Player.id).Nodup := by
      rw [updatePlayer_map_id s pid gU (fun p => rfl)]
      exact inv.playersNodup
    have hmem1 : gU player ∈ (updatePlayer s pid gU).players :=
      mem_updatePlayer.mpr ⟨player, hpmem, by rw [if_pos hpid]⟩
    have hmem' : gU player ∈ s'.players :=
      mem_players_after_next hnd1 hmem1 (by simp [hgu]) hnext
    have hfind : findPlayer s' pid = some (gU player) := by
      have := findPlayer_eq_of_mem inv'.playersNodup hmem'
      rwa [show (gU player).id = pid from hpid] at this
    exact ⟨gU player, hfind, fun _ => ⟨rfl, hsold⟩, fun hne => absurd hempty hne⟩

/-- Witness for C5: closing A in the §8 scenario sells it to Y, the
participant of the maximum ($600k) bid. -/
theorem C5_close_sold_or_unsold_witness :
    ∃ p', findPlayer scn4 "A" = some p' ∧
      (bidsOn scn3 "A" = [] →
        p'.status = PlayerStatus.unsold ∧ p'.sold_to = none) ∧
      (bidsOn scn3 "A" ≠ [] → ∃ hb, pickHighest (bidsOn scn3 "A") = some hb ∧
        p'.status = PlayerStatus.sold ∧ p'.sold_to = some hb.participant_id ∧
        (∀ b ∈ bidsOn scn3 "A", b.amount ≤ hb.amount) ∧
        (∀ b ∈ bidsOn scn3 "A", b.amount = hb.amount → hb.ts ≤ b.ts)) :=
  C5_close_sold_or_unsold reach_scn3 scn_close1

end TeamBidder
